import Mathlib

/-!
# Verification of the AdaptiveFee_CPAMM pricing core

Shallow embedding of `src/CPAMM_Rust/src/lib.rs` (Anchor program
`adaptive_cpamm`).  Machine integers (`u64`, `u128`, `u16`) are modelled as
`Nat` with explicit range guards: every `checked_mul` / `checked_add` of the
source becomes an explicit `≥ 2^128` test returning `MathOverflow`, every
`saturating_*` becomes a `min`-clamp, and every `as u64` / `as u16` cast
becomes `% 2^64` / `% 2^16`.  SPL token transfers and LP mint/burn are
modelled by their balance effect; a transfer or mint that would push a u64
token balance past `2^64 - 1` fails (the token program rejects it), modelled
by the `TokenOverflow` error.  The u64 subtraction `BPS_DENOM - fee_bps`
panics on underflow (overflow checks abort the transaction); the abort is
modelled as a `MathOverflow` failure.  On any error the whole Anchor
transaction reverts, so an `Except.error` result leaves the caller's state
unchanged.
-/

namespace AdaptiveCpamm

/-- Fixed-point scale for prices/EMA/slippage signals (1e12). -/
def SCALE : Nat := 1000000000000

/-- Basis points denominator. -/
def BPS_DENOM : Nat := 10000

/-- One past the largest `u64` value. -/
def U64 : Nat := 2 ^ 64

/-- One past the largest `u128` value. -/
def U128 : Nat := 2 ^ 128

/-- One past the largest `u16` value. -/
def U16 : Nat := 2 ^ 16

/-- Pool state (`struct Pool`): the arithmetic fields only; pubkeys and the
PDA bump are account wiring outside the pricing core.  Vault token balances
are mirrored by `reserve0` / `reserve1` after every operation. -/
structure Pool where
  total_lp_supply : Nat
  reserve0 : Nat
  reserve1 : Nat
  min_fee_bps : Nat
  max_fee_bps : Nat
  beta_vol_bps_per1e12 : Nat
  gamma_slip_bps_per1e12 : Nat
  delta_shallow_bps_per1e12 : Nat
  ema_price_1e12 : Nat
  ema_alpha_1e12 : Nat
  breaker_vol_threshold_1e12 : Nat
deriving DecidableEq, Repr

/-- `enum AmmError`, plus `TokenOverflow` modelling a failed token-program
CPI (destination u64 balance or LP mint supply would overflow). -/
inductive AmmError where
  | NotAuthorized
  | BadBounds
  | ZeroAmount
  | ZeroShares
  | InsufficientLP
  | NoLiquidity
  | BadRatio
  | MathOverflow
  | AmountOutZero
  | VolTooHigh
  | TokenOverflow
deriving DecidableEq, Repr

/-- `fn spot_price_1e12`: spot price of token0 in token1, scaled by 1e12.
The source computes the quotient in `u128` and returns `p as u64`, hence
the `% U64`. -/
def spot_price_1e12 (reserve0 reserve1 : Nat) : Except AmmError Nat :=
  if reserve0 > 0 ∧ reserve1 > 0 then
    if reserve1 * SCALE < U128 then
      Except.ok (reserve1 * SCALE / reserve0 % U64)
    else
      Except.error AmmError.MathOverflow
  else
    Except.error AmmError.NoLiquidity

/-- Loop body of `fn isqrt`: `while x < z { z = x; x = (y / x + x) / 2 }`.
The pair `(x, z)` is the current iterate and the previous one; the loop
exits returning `z` as soon as `x ≥ z`. -/
def isqrtAux (y : Nat) : Nat → Nat → Nat
  | x, z =>
    if h : x < z then
      isqrtAux y ((y / x + x) / 2) x
    else
      z
termination_by _x z => z
decreasing_by exact h

/-- `fn isqrt`: Babylonian integer square root of the source (no special
case for small inputs, unlike the Uniswap original). -/
def isqrt (y : Nat) : Nat :=
  if y = 0 then 0 else isqrtAux y (y / 2 + 1) y

/-- `fn ema_update`: `EMA <- EMA + alpha * (price - EMA)`, all 1e12-scaled,
one-sided on the absolute difference; `saturating_mul`/`saturating_add` in
`u128` then an `as u64` store. -/
def ema_update (ema alpha_1e12 price_1e12 : Nat) : Nat :=
  if price_1e12 ≥ ema then
    let diff := price_1e12 - ema
    let delta := min (diff * alpha_1e12) (U128 - 1) / SCALE
    min (ema + delta) (U128 - 1) % U64
  else
    let diff := ema - price_1e12
    let delta := min (diff * alpha_1e12) (U128 - 1) / SCALE
    (ema - delta) % U64

/-- `u128::checked_mul` followed by `.ok_or(AmmError::MathOverflow)?`. -/
def checked_mul (a b : Nat) : Except AmmError Nat :=
  if a * b < U128 then Except.ok (a * b) else Except.error AmmError.MathOverflow

/-- `u128::checked_add` followed by `.ok_or(AmmError::MathOverflow)?`. -/
def checked_add (a b : Nat) : Except AmmError Nat :=
  if a + b < U128 then Except.ok (a + b) else Except.error AmmError.MathOverflow

/-- `fn compute_dynamic_fee`: returns `(fee_bps, vol_1e12, slip_1e12,
shallow_1e12)`.  `min_res.saturating_add(k)` is a `min`-clamp; the final
`raw_bps as u16` cast is `% U16`. -/
def compute_dynamic_fee (pool : Pool) (token_in_is_0 : Bool)
    (amount_in r0 r1 : Nat) : Except AmmError (Nat × Nat × Nat × Nat) :=
  if amount_in = 0 then Except.error AmmError.ZeroAmount else
  let rin := if token_in_is_0 then r0 else r1
  match checked_mul r1 SCALE with
  | Except.error e => Except.error e
  | Except.ok pn =>
  let price_now := pn / r0
  let ema := pool.ema_price_1e12
  match (if ema = 0 then Except.ok 0
         else if price_now ≥ ema then
           match checked_mul (price_now - ema) SCALE with
           | Except.error e => Except.error e
           | Except.ok t => Except.ok (t / ema)
         else
           match checked_mul (ema - price_now) SCALE with
           | Except.error e => Except.error e
           | Except.ok t => Except.ok (t / ema)) with
  | Except.error e => Except.error e
  | Except.ok vol_1e12 =>
  match checked_mul amount_in SCALE with
  | Except.error e => Except.error e
  | Except.ok sn =>
  match checked_add rin amount_in with
  | Except.error e => Except.error e
  | Except.ok sd =>
  let slip_1e12 := sn / sd
  let min_res := min r0 r1
  let k : Nat := 1000 * 1000000
  match checked_mul min_res SCALE with
  | Except.error e => Except.error e
  | Except.ok mn =>
  let shallow_1e12 := SCALE - mn / min (min_res + k) (U128 - 1)
  match checked_mul pool.beta_vol_bps_per1e12 vol_1e12 with
  | Except.error e => Except.error e
  | Except.ok t1 =>
  match checked_mul pool.gamma_slip_bps_per1e12 slip_1e12 with
  | Except.error e => Except.error e
  | Except.ok t2 =>
  match checked_mul pool.delta_shallow_bps_per1e12 shallow_1e12 with
  | Except.error e => Except.error e
  | Except.ok t3 =>
  let dyn_part_bps := t1 / SCALE + t2 / SCALE + t3 / SCALE
  match checked_add pool.min_fee_bps dyn_part_bps with
  | Except.error e => Except.error e
  | Except.ok raw0 =>
  let raw1 := if raw0 < pool.min_fee_bps then pool.min_fee_bps else raw0
  let raw2 := if raw1 > pool.max_fee_bps then pool.max_fee_bps else raw1
  Except.ok (raw2 % U16, vol_1e12, slip_1e12, shallow_1e12)

/-- The x*y=k pricing expression of `swap`: fee taken on the input leg, all
divisions truncating:
`amountOut = rout * dxf / (rin + dxf)` with `dxf = a*(10000-fee)/10000`. -/
def swap_out (rin rout fee_bps a : Nat) : Nat :=
  rout * (a * (BPS_DENOM - fee_bps) / BPS_DENOM)
    / (rin + a * (BPS_DENOM - fee_bps) / BPS_DENOM)

/-- `pub fn initialize_pool`: `init` zero-initializes the account, so
reserves, LP supply and `ema_price_1e12` start at 0 (the source also sets
the reserves and the EMA to 0 explicitly). -/
def initialize_pool (min_fee_bps max_fee_bps beta_vol_bps_per1e12
    gamma_slip_bps_per1e12 delta_shallow_bps_per1e12 ema_alpha_1e12
    breaker_vol_threshold_1e12 : Nat) : Except AmmError Pool :=
  if min_fee_bps ≤ max_fee_bps then
    Except.ok
      { total_lp_supply := 0
        reserve0 := 0
        reserve1 := 0
        min_fee_bps := min_fee_bps
        max_fee_bps := max_fee_bps
        beta_vol_bps_per1e12 := beta_vol_bps_per1e12
        gamma_slip_bps_per1e12 := gamma_slip_bps_per1e12
        delta_shallow_bps_per1e12 := delta_shallow_bps_per1e12
        ema_price_1e12 := 0
        ema_alpha_1e12 := ema_alpha_1e12
        breaker_vol_threshold_1e12 := breaker_vol_threshold_1e12 }
  else
    Except.error AmmError.BadBounds

/-- `pub fn set_params` (the authority signer check is account wiring,
assumed passed). -/
def set_params (pool : Pool) (min_fee_bps max_fee_bps beta_vol_bps_per1e12
    gamma_slip_bps_per1e12 delta_shallow_bps_per1e12 ema_alpha_1e12
    breaker_vol_threshold_1e12 : Nat) : Except AmmError Pool :=
  if min_fee_bps ≤ max_fee_bps then
    Except.ok
      { pool with
        min_fee_bps := min_fee_bps
        max_fee_bps := max_fee_bps
        beta_vol_bps_per1e12 := beta_vol_bps_per1e12
        gamma_slip_bps_per1e12 := gamma_slip_bps_per1e12
        delta_shallow_bps_per1e12 := delta_shallow_bps_per1e12
        ema_alpha_1e12 := ema_alpha_1e12
        breaker_vol_threshold_1e12 := breaker_vol_threshold_1e12 }
  else
    Except.error AmmError.BadBounds

/-- `pub fn add_liquidity`.  Vault balances (`ctx.accounts.vault*.amount`)
equal the mirrored reserves between operations, so the post-transfer
balances are `reserve + amount` (the transfer fails if the u64 vault
balance would overflow).  Returns the new pool state and the minted
shares. -/
def add_liquidity (pool : Pool) (amount0 amount1 : Nat) :
    Except AmmError (Pool × Nat) :=
  if ¬(amount0 > 0 ∧ amount1 > 0) then Except.error AmmError.ZeroAmount else
  if pool.reserve0 > 0 ∧ pool.reserve1 > 0 ∧
      pool.reserve0 * amount1 ≠ pool.reserve1 * amount0 then
    Except.error AmmError.BadRatio else
  if pool.reserve0 + amount0 ≥ U64 then Except.error AmmError.TokenOverflow else
  if pool.reserve1 + amount1 ≥ U64 then Except.error AmmError.TokenOverflow else
  let new_bal0 := pool.reserve0 + amount0
  let new_bal1 := pool.reserve1 + amount1
  let branch : Except AmmError (Nat × Nat) :=
    if pool.total_lp_supply = 0 then
      match checked_mul new_bal0 new_bal1 with
      | Except.error e => Except.error e
      | Except.ok k =>
        let shares := isqrt k % U64
        if pool.ema_price_1e12 = 0 then
          match spot_price_1e12 new_bal0 new_bal1 with
          | Except.error e => Except.error e
          | Except.ok price => Except.ok (shares, price)
        else Except.ok (shares, pool.ema_price_1e12)
    else
      let t := pool.total_lp_supply
      match checked_mul amount0 t with
      | Except.error e => Except.error e
      | Except.ok dxm =>
      match checked_mul amount1 t with
      | Except.error e => Except.error e
      | Except.ok dym =>
        let dx := dxm / pool.reserve0
        let dy := dym / pool.reserve1
        Except.ok (min dx dy % U64, pool.ema_price_1e12)
  match branch with
  | Except.error e => Except.error e
  | Except.ok (shares_to_mint, ema1) =>
    if shares_to_mint = 0 then Except.error AmmError.ZeroShares else
    if pool.total_lp_supply + shares_to_mint ≥ U64 then
      Except.error AmmError.MathOverflow else
    let pool1 : Pool :=
      { pool with
        reserve0 := new_bal0
        reserve1 := new_bal1
        total_lp_supply := pool.total_lp_supply + shares_to_mint
        ema_price_1e12 := ema1 }
    if pool1.reserve0 > 0 ∧ pool1.reserve1 > 0 then
      match spot_price_1e12 pool1.reserve0 pool1.reserve1 with
      | Except.error e => Except.error e
      | Except.ok price =>
        Except.ok
          ({ pool1 with
             ema_price_1e12 :=
               ema_update pool1.ema_price_1e12 pool1.ema_alpha_1e12 price },
           shares_to_mint)
    else Except.ok (pool1, shares_to_mint)

/-- `pub fn remove_liquidity`.  The LP burn of the caller's shares is
balance bookkeeping outside the pool record; payouts are computed from the
vault balances, which mirror the reserves.  Returns the new pool state and
the two payout amounts (either may be 0). -/
def remove_liquidity (pool : Pool) (shares : Nat) :
    Except AmmError (Pool × Nat × Nat) :=
  if shares = 0 then Except.error AmmError.ZeroShares else
  if ¬(pool.total_lp_supply ≥ shares) then
    Except.error AmmError.InsufficientLP else
  let bal0 := pool.reserve0
  let bal1 := pool.reserve1
  match checked_mul shares bal0 with
  | Except.error e => Except.error e
  | Except.ok a0m =>
  match checked_mul shares bal1 with
  | Except.error e => Except.error e
  | Except.ok a1m =>
  let amount0 := a0m / pool.total_lp_supply
  let amount1 := a1m / pool.total_lp_supply
  let pool1 : Pool :=
    { pool with
      total_lp_supply := pool.total_lp_supply - shares
      reserve0 := bal0 - amount0
      reserve1 := bal1 - amount1 }
  if pool1.reserve0 > 0 ∧ pool1.reserve1 > 0 then
    match spot_price_1e12 pool1.reserve0 pool1.reserve1 with
    | Except.error e => Except.error e
    | Except.ok price =>
      Except.ok
        ({ pool1 with
           ema_price_1e12 :=
             ema_update pool1.ema_price_1e12 pool1.ema_alpha_1e12 price },
         amount0, amount1)
  else Except.ok (pool1, amount0, amount1)

/-- `pub fn swap`.  The input transfer lands in the chosen vault before the
reserves are re-read (`r0`, `r1` are post-deposit, pre-payout); fee and
breaker use those; the output payout happens only after `amount_out > 0` is
confirmed.  Returns the new pool state and `amount_out`. -/
def swap (pool : Pool) (token_in_is_0 : Bool) (amount_in : Nat) :
    Except AmmError (Pool × Nat) :=
  if amount_in = 0 then Except.error AmmError.ZeroAmount else
  let r0 := if token_in_is_0 then pool.reserve0 + amount_in else pool.reserve0
  let r1 := if token_in_is_0 then pool.reserve1 else pool.reserve1 + amount_in
  if (if token_in_is_0 then r0 else r1) ≥ U64 then
    Except.error AmmError.TokenOverflow else
  if ¬(r0 > 0 ∧ r1 > 0) then Except.error AmmError.NoLiquidity else
  match compute_dynamic_fee pool token_in_is_0 amount_in r0 r1 with
  | Except.error e => Except.error e
  | Except.ok (fee_bps, vol_1e12, _slip_1e12, _shallow_1e12) =>
    if ¬(vol_1e12 ≤ pool.breaker_vol_threshold_1e12) then
      Except.error AmmError.VolTooHigh else
    let rin := if token_in_is_0 then r0 else r1
    let rout := if token_in_is_0 then r1 else r0
    if fee_bps > BPS_DENOM then Except.error AmmError.MathOverflow else
    let fee_num := BPS_DENOM - fee_bps
    match checked_mul amount_in fee_num with
    | Except.error e => Except.error e
    | Except.ok dxn =>
    let dx_fee := dxn / BPS_DENOM
    match checked_mul rout dx_fee with
    | Except.error e => Except.error e
    | Except.ok _on =>
    match checked_add rin dx_fee with
    | Except.error e => Except.error e
    | Except.ok _od =>
    let amount_out := swap_out rin rout fee_bps amount_in
    if amount_out = 0 then Except.error AmmError.AmountOutZero else
    let pool1 : Pool :=
      { pool with
        reserve0 := if token_in_is_0 then r0 else r0 - amount_out
        reserve1 := if token_in_is_0 then r1 - amount_out else r1 }
    match spot_price_1e12 pool1.reserve0 pool1.reserve1 with
    | Except.error e => Except.error e
    | Except.ok price =>
      Except.ok
        ({ pool1 with
           ema_price_1e12 :=
             ema_update pool1.ema_price_1e12 pool1.ema_alpha_1e12 price },
         amount_out)

/-- The pool states reachable through the program's instructions. -/
inductive Reachable : Pool → Prop where
  | init : ∀ mn mx b g d al br p,
      initialize_pool mn mx b g d al br = Except.ok p → Reachable p
  | addLiq : ∀ p a0 a1 p' s, Reachable p →
      add_liquidity p a0 a1 = Except.ok (p', s) → Reachable p'
  | remLiq : ∀ p sh p' a0 a1, Reachable p →
      remove_liquidity p sh = Except.ok (p', a0, a1) → Reachable p'
  | swapStep : ∀ p d a p' o, Reachable p →
      swap p d a = Except.ok (p', o) → Reachable p'
  | setStep : ∀ p mn mx b g d al br p', Reachable p →
      set_params p mn mx b g d al br = Except.ok p' → Reachable p'

/-- The committed state after an attempted swap: on any error the Anchor
transaction reverts, leaving the previous pool state. -/
def run_swap (pool : Pool) (token_in_is_0 : Bool) (amount_in : Nat) : Pool :=
  match swap pool token_in_is_0 amount_in with
  | Except.ok (p', _) => p'
  | Except.error _ => pool

/-- The committed state after an attempted liquidity addition. -/
def run_add_liquidity (pool : Pool) (amount0 amount1 : Nat) : Pool :=
  match add_liquidity pool amount0 amount1 with
  | Except.ok (p', _) => p'
  | Except.error _ => pool

/-! ## Sample pool states used in witnesses and counterexamples -/

/-- A freshly initialized pool with all parameters zero. -/
def emptyPool : Pool :=
  { total_lp_supply := 0, reserve0 := 0, reserve1 := 0, min_fee_bps := 0,
    max_fee_bps := 0, beta_vol_bps_per1e12 := 0, gamma_slip_bps_per1e12 := 0,
    delta_shallow_bps_per1e12 := 0, ema_price_1e12 := 0, ema_alpha_1e12 := 0,
    breaker_vol_threshold_1e12 := 0 }

/-- Reserves (10, 10) but only one LP share outstanding: an exact-ratio
deposit of (5, 5) then truncates to zero shares. -/
def ratioPool : Pool :=
  { emptyPool with total_lp_supply := 1, reserve0 := 10, reserve1 := 10 }

/-- The spec's circuit-breaker example: `ema_price = 1e12`,
`breaker_vol_threshold = 0.1e12`; a swap of 100 of token0 against reserves
(900, 1200) moves the post-deposit spot price to `1.2e12`. -/
def breakerPool : Pool :=
  { emptyPool with
    total_lp_supply := 1039
    reserve0 := 900
    reserve1 := 1200
    max_fee_bps := 100
    ema_price_1e12 := 1000000000000
    breaker_vol_threshold_1e12 := 100000000000 }

/-- A pool whose volatility-signal multiplication overflows 128 bits on the
next 1-unit swap of token0: post-deposit spot price is `4e14 * 1e12` while
`ema_price = 1`. -/
def overflowPool : Pool :=
  { emptyPool with
    total_lp_supply := 1
    reserve1 := 400000000000000
    ema_price_1e12 := 1 }

/-- Balanced fee-free pool used in the swap-formula witness. -/
def swapPool : Pool :=
  { emptyPool with
    total_lp_supply := 1000
    reserve0 := 1000
    reserve1 := 1000
    ema_price_1e12 := 1000000000000
    breaker_vol_threshold_1e12 := 1000000000000000 }

/-- 100 LP shares against vault balances (1, 5): burning 50 shares pays out
`(0, 2)` - a zero-amount payout on asset0. -/
def dustPool : Pool :=
  { emptyPool with total_lp_supply := 100, reserve0 := 1, reserve1 := 5 }

/-! ## Arithmetic helper lemmas -/

/-- Cross-multiplication comparison of truncating divisions:
`a/b ≤ c/d` whenever `a*d ≤ c*b`. -/
lemma div_le_div_cross {a b c d : Nat} (hb : 0 < b) (hd : 0 < d)
    (h : a * d ≤ c * b) : a / b ≤ c / d := by
  rw [Nat.le_div_iff_mul_le hd]
  have h1 : a / b * b * d ≤ a * d :=
    Nat.mul_le_mul_right d (Nat.div_mul_le_self a b)
  have h2 : a / b * d * b ≤ c * b := by
    calc a / b * d * b = a / b * b * d := by ring
    _ ≤ a * d := h1
    _ ≤ c * b := h
  exact Nat.le_of_mul_le_mul_right h2 hb

/-- `spot_price_1e12` succeeds on positive in-range reserves and returns the
`u128` quotient truncated to `u64`. -/
lemma spot_price_ok {r0 r1 : Nat} (h0 : 0 < r0) (h1 : 0 < r1)
    (hw : r1 < U64) : spot_price_1e12 r0 r1 = Except.ok (r1 * SCALE / r0 % U64) := by
  unfold spot_price_1e12
  have hmul : r1 * SCALE < U128 := by
    calc r1 * SCALE ≤ (U64 - 1) * SCALE := by
          exact Nat.mul_le_mul_right SCALE (by omega)
    _ < U128 := by norm_num [U64, U128, SCALE]
  rw [if_pos ⟨h0, h1⟩, if_pos hmul]

/-! ## C9: spot price -/

/-- C9 counterexample: for `reserve0 = 1`, `reserve1 = 18446745` the `u128`
quotient `reserve1 * SCALE / reserve0 = 18446745e12` exceeds `u64::MAX`, and
the `as u64` cast in the source wraps it to `926290448384`, so the result is
not the claimed truncated quotient. -/
theorem spot_price_truncation_cex :
    spot_price_1e12 1 18446745 = Except.ok 926290448384 ∧
    18446745 * SCALE / 1 ≠ 926290448384 := by
  constructor
  · rfl
  · norm_num [SCALE]

/-- C9 (amended): `spot_price_1e12` fails with `NoLiquidity` iff either
reserve is zero, and on positive u64 reserves returns
`reserve1 * SCALE / reserve0` reduced modulo `2^64` (the quotient is exact
whenever it is below `2^64`; larger quotients wrap through the `as u64`
cast). -/
theorem spot_price_spec (r0 r1 : Nat) (hw : r1 < U64) :
    (spot_price_1e12 r0 r1 = Except.error AmmError.NoLiquidity ↔
      (r0 = 0 ∨ r1 = 0)) ∧
    (0 < r0 → 0 < r1 →
      spot_price_1e12 r0 r1 = Except.ok (r1 * SCALE / r0 % U64)) := by
  constructor
  · constructor
    · intro h
      by_contra hc
      push_neg at hc
      obtain ⟨hc0, hc1⟩ := hc
      rw [spot_price_ok (Nat.pos_of_ne_zero hc0) (Nat.pos_of_ne_zero hc1) hw] at h
      exact Except.noConfusion h
    · intro h
      unfold spot_price_1e12
      rw [if_neg]
      rintro ⟨h0, h1⟩
      rcases h with h | h <;> omega
  · intro h0 h1
    exact spot_price_ok h0 h1 hw

/-- C9 witness: reserves (250, 1000) give price `4e12` exactly. -/
theorem spot_price_spec_witness :
    (spot_price_1e12 250 1000 = Except.error AmmError.NoLiquidity ↔
      ((250 : Nat) = 0 ∨ (1000 : Nat) = 0)) ∧
    ((0 : Nat) < 250 → (0 : Nat) < 1000 →
      spot_price_1e12 250 1000 = Except.ok (1000 * SCALE / 250 % U64)) :=
  spot_price_spec 250 1000 (by norm_num [U64])

/-! ## C8: swap output monotonicity and bound -/

/-- Monotonicity half for the constant-product output expression. -/
lemma swap_out_mono {rin rout fee a b : Nat} (hab : a ≤ b) :
    swap_out rin rout fee a ≤ swap_out rin rout fee b := by
  unfold swap_out
  have hxy : a * (BPS_DENOM - fee) / BPS_DENOM ≤
      b * (BPS_DENOM - fee) / BPS_DENOM :=
    Nat.div_le_div_right (Nat.mul_le_mul_right _ hab)
  rcases Nat.eq_zero_or_pos (rin + a * (BPS_DENOM - fee) / BPS_DENOM)
    with h0 | h0
  · have hx0 : a * (BPS_DENOM - fee) / BPS_DENOM = 0 :=
      Nat.eq_zero_of_add_eq_zero_left h0
    simp [hx0]
  · apply div_le_div_cross h0 (Nat.lt_of_lt_of_le h0 (Nat.add_le_add_left hxy rin))
    calc rout * (a * (BPS_DENOM - fee) / BPS_DENOM) *
          (rin + b * (BPS_DENOM - fee) / BPS_DENOM)
        = rout * (a * (BPS_DENOM - fee) / BPS_DENOM) * rin +
          rout * (a * (BPS_DENOM - fee) / BPS_DENOM *
            (b * (BPS_DENOM - fee) / BPS_DENOM)) := by ring
      _ ≤ rout * (b * (BPS_DENOM - fee) / BPS_DENOM) * rin +
          rout * (a * (BPS_DENOM - fee) / BPS_DENOM *
            (b * (BPS_DENOM - fee) / BPS_DENOM)) := by
          exact Nat.add_le_add_right
            (Nat.mul_le_mul_right rin (Nat.mul_le_mul_left rout hxy)) _
      _ = rout * (b * (BPS_DENOM - fee) / BPS_DENOM) *
          (rin + a * (BPS_DENOM - fee) / BPS_DENOM) := by ring

/-- Strict upper bound: the output never reaches the output-side reserve. -/
lemma swap_out_lt {rin rout fee a : Nat} (hrin : 0 < rin) (hrout : 0 < rout) :
    swap_out rin rout fee a < rout := by
  unfold swap_out
  have hpos : 0 < rin + a * (BPS_DENOM - fee) / BPS_DENOM :=
    Nat.lt_of_lt_of_le hrin (Nat.le_add_right _ _)
  rw [Nat.div_lt_iff_lt_mul hpos]
  exact mul_lt_mul_of_pos_left (Nat.lt_add_of_pos_left hrin) hrout

/-- C8 counterexample: with reserves `rin = rout = 1000` and fee 0, inputs
1000 and 1001 produce the same output 500, so the output is not strictly
increasing in the input. -/
theorem swap_out_not_strict_cex :
    swap_out 1000 1000 0 1000 = 500 ∧ swap_out 1000 1000 0 1001 = 500 ∧
    (1000 : Nat) < 1001 := by
  refine ⟨rfl, rfl, by norm_num⟩

/-- C8 (amended): for fixed positive post-deposit reserves and fixed fee the
computed output is monotone (non-strictly) increasing in the input amount -
truncating division makes consecutive inputs collide - and is always
strictly below the output-side reserve. -/
theorem swap_out_monotone_bounded (rin rout fee a b : Nat)
    (hrin : 0 < rin) (hrout : 0 < rout) (hab : a ≤ b) :
    swap_out rin rout fee a ≤ swap_out rin rout fee b ∧
    swap_out rin rout fee a < rout :=
  ⟨swap_out_mono hab, swap_out_lt hrin hrout⟩

/-- C8 witness at reserves (1000, 1000), fee 30, inputs 100 ≤ 200. -/
theorem swap_out_monotone_bounded_witness :
    swap_out 1000 1000 30 100 ≤ swap_out 1000 1000 30 200 ∧
    swap_out 1000 1000 30 100 < 1000 :=
  swap_out_monotone_bounded 1000 1000 30 100 200 (by norm_num) (by norm_num)
    (by norm_num)

/-! ## C2: dynamic fee composition and clamping -/

/-- Hard floor/ceiling clamp. -/
def clamp (lo hi x : Nat) : Nat := min (max x lo) hi

/-- Successful `checked_mul` returns the product, which fits in 128 bits. -/
lemma checked_mul_ok {a b c : Nat} (h : checked_mul a b = Except.ok c) :
    c = a * b ∧ a * b < U128 := by
  unfold checked_mul at h
  split_ifs at h with hlt
  exact ⟨(Except.ok.injEq _ _ ▸ h).symm, hlt⟩

/-- Successful `checked_add` returns the sum, which fits in 128 bits. -/
lemma checked_add_ok {a b c : Nat} (h : checked_add a b = Except.ok c) :
    c = a + b ∧ a + b < U128 := by
  unfold checked_add at h
  split_ifs at h with hlt
  exact ⟨(Except.ok.injEq _ _ ▸ h).symm, hlt⟩

/-- The tail of `compute_dynamic_fee`: the double `if` followed by the
`as u16` cast implements `clamp` and stays within the fee bounds. -/
lemma fee_tail_spec (lo hi D : Nat) (hlh : lo ≤ hi) (hhi : hi < U16) :
    ((if (if lo + D < lo then lo else lo + D) > hi then hi
      else if lo + D < lo then lo else lo + D) % U16 = clamp lo hi (lo + D)) ∧
    lo ≤ (if (if lo + D < lo then lo else lo + D) > hi then hi
      else if lo + D < lo then lo else lo + D) % U16 ∧
    (if (if lo + D < lo then lo else lo + D) > hi then hi
      else if lo + D < lo then lo else lo + D) % U16 ≤ hi := by
  have hno : ¬ (lo + D < lo) := by omega
  simp only [if_neg hno]
  by_cases hgt : lo + D > hi
  · rw [if_pos hgt, Nat.mod_eq_of_lt hhi]
    unfold clamp
    rw [max_eq_left (Nat.le_add_right lo D), min_eq_right (le_of_lt hgt)]
    exact ⟨rfl, hlh, le_refl hi⟩
  · push_neg at hgt
    rw [if_neg (not_lt.2 hgt), Nat.mod_eq_of_lt (lt_of_le_of_lt hgt hhi)]
    unfold clamp
    rw [max_eq_left (Nat.le_add_right lo D), min_eq_left hgt]
    exact ⟨rfl, Nat.le_add_right lo D, hgt⟩

/-- C2: whenever `compute_dynamic_fee` succeeds (with `min_fee ≤ max_fee`
as enforced at configuration time, and u16 bounds), the returned fee is
`clamp(min_fee + beta*vol/SCALE + gamma*slip/SCALE + delta*shallow/SCALE,
min_fee, max_fee)` - each weighted term its own integer scaled division -
and lies between the two bounds.  Clamping never produces an error. -/
theorem fee_clamp_bounds (pool : Pool) (d : Bool) (a r0 r1 fee vol slip sh : Nat)
    (hmm : pool.min_fee_bps ≤ pool.max_fee_bps) (hmax : pool.max_fee_bps < U16)
    (hok : compute_dynamic_fee pool d a r0 r1 = Except.ok (fee, vol, slip, sh)) :
    fee = clamp pool.min_fee_bps pool.max_fee_bps
        (pool.min_fee_bps + (pool.beta_vol_bps_per1e12 * vol / SCALE +
          pool.gamma_slip_bps_per1e12 * slip / SCALE +
          pool.delta_shallow_bps_per1e12 * sh / SCALE)) ∧
    pool.min_fee_bps ≤ fee ∧ fee ≤ pool.max_fee_bps := by
  unfold compute_dynamic_fee at hok
  by_cases g1 : a = 0
  · rw [if_pos g1] at hok
    exact Except.noConfusion hok
  rw [if_neg g1] at hok
  rcases hpn : checked_mul r1 SCALE with e | pn <;> rw [hpn] at hok
  · exact Except.noConfusion hok
  dsimp only at hok
  split at hok
  next e heq => exact Except.noConfusion hok
  next volv hveq =>
  split at hok
  next e heq => exact Except.noConfusion hok
  next snv hsneq =>
  split at hok
  next e heq => exact Except.noConfusion hok
  next sdv hsdeq =>
  split at hok
  next e heq => exact Except.noConfusion hok
  next mnv hmneq =>
  split at hok
  next e heq => exact Except.noConfusion hok
  next t1v ht1 =>
  split at hok
  next e heq => exact Except.noConfusion hok
  next t2v ht2 =>
  split at hok
  next e heq => exact Except.noConfusion hok
  next t3v ht3 =>
  split at hok
  next e heq => exact Except.noConfusion hok
  next raw0v hraw0 =>
  simp only [Except.ok.injEq, Prod.mk.injEq] at hok
  obtain ⟨hfee, hvol, hslip, hsh⟩ := hok
  subst hvol
  subst hslip
  subst hsh
  obtain ⟨ht1e, -⟩ := checked_mul_ok ht1
  obtain ⟨ht2e, -⟩ := checked_mul_ok ht2
  obtain ⟨ht3e, -⟩ := checked_mul_ok ht3
  obtain ⟨hr0e, -⟩ := checked_add_ok hraw0
  subst hfee
  subst ht1e
  subst ht2e
  subst ht3e
  subst hr0e
  exact fee_tail_spec pool.min_fee_bps pool.max_fee_bps _ hmm hmax

/-- Pool exercising the clamp: bounds `[5, 30]`, nonzero volatility and
slippage coefficients. -/
def feePool : Pool :=
  { emptyPool with
    total_lp_supply := 1000
    reserve0 := 1000
    reserve1 := 1000
    min_fee_bps := 5
    max_fee_bps := 30
    beta_vol_bps_per1e12 := 1000
    gamma_slip_bps_per1e12 := 2000
    ema_price_1e12 := 1000000000000
    breaker_vol_threshold_1e12 := 1000000000000000 }

/-- C2 witness: the raw fee `5 + 90 + 166` exceeds `max_fee = 30` and is
clamped down to 30. -/
theorem fee_clamp_bounds_witness :
    (30 : Nat) = clamp feePool.min_fee_bps feePool.max_fee_bps
        (feePool.min_fee_bps +
          (feePool.beta_vol_bps_per1e12 * 90909090910 / SCALE +
          feePool.gamma_slip_bps_per1e12 * 83333333333 / SCALE +
          feePool.delta_shallow_bps_per1e12 * 999999000001 / SCALE)) ∧
    feePool.min_fee_bps ≤ 30 ∧ (30 : Nat) ≤ feePool.max_fee_bps :=
  fee_clamp_bounds feePool true 100 1100 1000 30 90909090910 83333333333
    999999000001 (by norm_num [feePool, emptyPool])
    (by norm_num [feePool, emptyPool, U16]) (by rfl)

/-! ## Shape of a successful swap -/

/-- `checked_mul` succeeds on an in-range product. -/
lemma checked_mul_eq_ok {a b : Nat} (h : a * b < U128) :
    checked_mul a b = Except.ok (a * b) := by
  unfold checked_mul
  exact if_pos h

/-- `checked_add` succeeds on an in-range sum. -/
lemma checked_add_eq_ok {a b : Nat} (h : a + b < U128) :
    checked_add a b = Except.ok (a + b) := by
  unfold checked_add
  exact if_pos h

/-- Anatomy of a successful `swap`: every guard passed, the output is the
constant-product formula `swap_out` over the post-deposit reserves, and the
new state re-mirrors the vaults and EMA-updates toward the new spot
price. -/
lemma swap_ok_shape {pool : Pool} {d : Bool} {a : Nat} {p' : Pool} {out : Nat}
    (h : swap pool d a = Except.ok (p', out)) :
    ∃ fee vol slip sh price,
      a ≠ 0 ∧
      (if d then pool.reserve0 else pool.reserve1) + a < U64 ∧
      0 < (if d then pool.reserve0 + a else pool.reserve0) ∧
      0 < (if d then pool.reserve1 else pool.reserve1 + a) ∧
      compute_dynamic_fee pool d a
        (if d then pool.reserve0 + a else pool.reserve0)
        (if d then pool.reserve1 else pool.reserve1 + a) =
          Except.ok (fee, vol, slip, sh) ∧
      vol ≤ pool.breaker_vol_threshold_1e12 ∧
      fee ≤ BPS_DENOM ∧
      out = swap_out (if d then pool.reserve0 + a else pool.reserve1 + a)
        (if d then pool.reserve1 else pool.reserve0) fee a ∧
      0 < out ∧
      spot_price_1e12 (if d then pool.reserve0 + a else pool.reserve0 - out)
        (if d then pool.reserve1 - out else pool.reserve1 + a) =
          Except.ok price ∧
      p' = { pool with
             reserve0 := if d then pool.reserve0 + a else pool.reserve0 - out
             reserve1 := if d then pool.reserve1 - out else pool.reserve1 + a
             ema_price_1e12 :=
               ema_update pool.ema_price_1e12 pool.ema_alpha_1e12 price } := by
  cases d
  case true =>
    unfold swap at h
    simp only [ite_true, ite_false] at h ⊢
    split at h
    next c1 => exact Except.noConfusion h
    next c1 =>
    split at h
    next c2 => exact Except.noConfusion h
    next c2 =>
    split at h
    next c3 => exact Except.noConfusion h
    next c3 =>
    push_neg at c3
    split at h
    next e heq => exact Except.noConfusion h
    next fee vol slip sh heq =>
    split at h
    next c4 => exact Except.noConfusion h
    next c4 =>
    push_neg at c4
    split at h
    next c5 => exact Except.noConfusion h
    next c5 =>
    push_neg at c5
    split at h
    next e hdxn => exact Except.noConfusion h
    next dxn hdxn =>
    split at h
    next e ho1 => exact Except.noConfusion h
    next o1 ho1 =>
    split at h
    next e ho2 => exact Except.noConfusion h
    next o2 ho2 =>
    split at h
    next c6 => exact Except.noConfusion h
    next c6 =>
    split at h
    next e hpr => exact Except.noConfusion h
    next price hpr =>
    simp only [Except.ok.injEq, Prod.mk.injEq] at h
    obtain ⟨hp', hout⟩ := h
    rw [hout] at hpr hp' c6
    exact ⟨fee, vol, slip, sh, price, c1, by omega, c3.1, c3.2, heq, c4, c5,
      hout.symm, Nat.pos_of_ne_zero c6, hpr, hp'.symm⟩
  case false =>
    unfold swap at h
    simp only [show ((false : Bool) = true) = False from eq_false (by decide),
      if_false, ite_true, ite_false] at h ⊢
    split at h
    next c1 => exact Except.noConfusion h
    next c1 =>
    split at h
    next c2 => exact Except.noConfusion h
    next c2 =>
    split at h
    next c3 => exact Except.noConfusion h
    next c3 =>
    push_neg at c3
    split at h
    next e heq => exact Except.noConfusion h
    next fee vol slip sh heq =>
    split at h
    next c4 => exact Except.noConfusion h
    next c4 =>
    push_neg at c4
    split at h
    next c5 => exact Except.noConfusion h
    next c5 =>
    push_neg at c5
    split at h
    next e hdxn => exact Except.noConfusion h
    next dxn hdxn =>
    split at h
    next e ho1 => exact Except.noConfusion h
    next o1 ho1 =>
    split at h
    next e ho2 => exact Except.noConfusion h
    next o2 ho2 =>
    split at h
    next c6 => exact Except.noConfusion h
    next c6 =>
    split at h
    next e hpr => exact Except.noConfusion h
    next price hpr =>
    simp only [Except.ok.injEq, Prod.mk.injEq] at h
    obtain ⟨hp', hout⟩ := h
    rw [hout] at hpr hp' c6
    exact ⟨fee, vol, slip, sh, price, c1, by omega, c3.1, c3.2, heq, c4, c5,
      hout.symm, Nat.pos_of_ne_zero c6, hpr, hp'.symm⟩

/-! ## C1: constant-product pricing of swap -/

/-- C1: (a) every successful swap returns exactly
`amountOut = reserveOut * amountInAfterFee / (reserveIn + amountInAfterFee)`
with `amountInAfterFee = amountIn * (10000 - fee_bps) / 10000` (that is,
`swap_out`) over the post-deposit, pre-payout reserves, and that output is
nonzero; (b) if the pricing formula yields 0 for a swap that reaches it,
the swap fails with `AmountOutZero`. -/
theorem swap_cp_pricing (pool : Pool) (d : Bool) (a : Nat) :
    (∀ p' out, swap pool d a = Except.ok (p', out) →
      ∃ fee vol slip sh,
        compute_dynamic_fee pool d a
          (if d then pool.reserve0 + a else pool.reserve0)
          (if d then pool.reserve1 else pool.reserve1 + a) =
            Except.ok (fee, vol, slip, sh) ∧
        out = swap_out (if d then pool.reserve0 + a else pool.reserve1 + a)
          (if d then pool.reserve1 else pool.reserve0) fee a ∧
        0 < out) ∧
    (∀ fee vol slip sh, a ≠ 0 →
      (if d then pool.reserve0 else pool.reserve1) + a < U64 →
      (if d then pool.reserve1 else pool.reserve0) < U64 →
      0 < (if d then pool.reserve0 + a else pool.reserve0) →
      0 < (if d then pool.reserve1 else pool.reserve1 + a) →
      compute_dynamic_fee pool d a
        (if d then pool.reserve0 + a else pool.reserve0)
        (if d then pool.reserve1 else pool.reserve1 + a) =
          Except.ok (fee, vol, slip, sh) →
      vol ≤ pool.breaker_vol_threshold_1e12 →
      fee ≤ BPS_DENOM →
      swap_out (if d then pool.reserve0 + a else pool.reserve1 + a)
        (if d then pool.reserve1 else pool.reserve0) fee a = 0 →
      swap pool d a = Except.error AmmError.AmountOutZero) := by
  constructor
  · intro p' out h
    obtain ⟨fee, vol, slip, sh, price, _, _, _, _, hfee, _, _, hout, hpos, _, _⟩ :=
      swap_ok_shape h
    exact ⟨fee, vol, slip, sh, hfee, hout, hpos⟩
  · intro fee vol slip sh ha hw hwout h0 h1 hfee hvol hfb hz0
    cases d
    case true =>
      simp only [ite_true, ite_false] at hw hwout h0 h1 hfee hz0
      unfold swap
      simp only [ite_true, ite_false]
      rw [if_neg ha, if_neg (by omega : ¬(pool.reserve0 + a ≥ U64)),
        if_neg (not_not_intro ⟨h0, h1⟩), hfee]
      dsimp only
      rw [if_neg (not_not_intro hvol),
        if_neg (by omega : ¬(fee > BPS_DENOM))]
      have hf : BPS_DENOM - fee ≤ BPS_DENOM := Nat.sub_le _ _
      have ha64 : a < U64 := by omega
      have hdx : a * (BPS_DENOM - fee) / BPS_DENOM ≤ a := by
        calc a * (BPS_DENOM - fee) / BPS_DENOM
            ≤ a * BPS_DENOM / BPS_DENOM :=
              Nat.div_le_div_right (Nat.mul_le_mul_left _ hf)
        _ = a := Nat.mul_div_cancel _ (by norm_num [BPS_DENOM])
      rw [checked_mul_eq_ok (show a * (BPS_DENOM - fee) < U128 by
        calc a * (BPS_DENOM - fee) ≤ (U64 - 1) * BPS_DENOM :=
              Nat.mul_le_mul (by omega) hf
        _ < U128 := by norm_num [U64, U128, BPS_DENOM])]
      dsimp only
      rw [checked_mul_eq_ok (show
          pool.reserve1 * (a * (BPS_DENOM - fee) / BPS_DENOM) < U128 by
        obtain ⟨z, hzz⟩ : ∃ z, a * (BPS_DENOM - fee) / BPS_DENOM = z := ⟨_, rfl⟩
        rw [hzz] at hdx ⊢
        calc pool.reserve1 * z ≤ (U64 - 1) * (U64 - 1) :=
              Nat.mul_le_mul (by omega) (by omega)
        _ < U128 := by norm_num [U64, U128])]
      dsimp only
      rw [checked_add_eq_ok (show
          pool.reserve0 + a + a * (BPS_DENOM - fee) / BPS_DENOM < U128 by
        obtain ⟨z, hzz⟩ : ∃ z, a * (BPS_DENOM - fee) / BPS_DENOM = z := ⟨_, rfl⟩
        rw [hzz] at hdx ⊢
        have hU : U64 + U64 ≤ U128 := by norm_num [U64, U128]
        omega)]
      dsimp only
      rw [if_pos hz0]
    case false =>
      simp only [show ((false : Bool) = true) = False from eq_false (by decide),
        if_false, ite_true, ite_false] at hw hwout h0 h1 hfee hz0
      unfold swap
      simp only [show ((false : Bool) = true) = False from eq_false (by decide),
        if_false, ite_true, ite_false]
      rw [if_neg ha, if_neg (by omega : ¬(pool.reserve1 + a ≥ U64)),
        if_neg (not_not_intro ⟨h0, h1⟩), hfee]
      dsimp only
      rw [if_neg (not_not_intro hvol),
        if_neg (by omega : ¬(fee > BPS_DENOM))]
      have hf : BPS_DENOM - fee ≤ BPS_DENOM := Nat.sub_le _ _
      have ha64 : a < U64 := by omega
      have hdx : a * (BPS_DENOM - fee) / BPS_DENOM ≤ a := by
        calc a * (BPS_DENOM - fee) / BPS_DENOM
            ≤ a * BPS_DENOM / BPS_DENOM :=
              Nat.div_le_div_right (Nat.mul_le_mul_left _ hf)
        _ = a := Nat.mul_div_cancel _ (by norm_num [BPS_DENOM])
      rw [checked_mul_eq_ok (show a * (BPS_DENOM - fee) < U128 by
        calc a * (BPS_DENOM - fee) ≤ (U64 - 1) * BPS_DENOM :=
              Nat.mul_le_mul (by omega) hf
        _ < U128 := by norm_num [U64, U128, BPS_DENOM])]
      dsimp only
      rw [checked_mul_eq_ok (show
          pool.reserve0 * (a * (BPS_DENOM - fee) / BPS_DENOM) < U128 by
        obtain ⟨z, hzz⟩ : ∃ z, a * (BPS_DENOM - fee) / BPS_DENOM = z := ⟨_, rfl⟩
        rw [hzz] at hdx ⊢
        calc pool.reserve0 * z ≤ (U64 - 1) * (U64 - 1) :=
              Nat.mul_le_mul (by omega) (by omega)
        _ < U128 := by norm_num [U64, U128])]
      dsimp only
      rw [checked_add_eq_ok (show
          pool.reserve1 + a + a * (BPS_DENOM - fee) / BPS_DENOM < U128 by
        obtain ⟨z, hzz⟩ : ∃ z, a * (BPS_DENOM - fee) / BPS_DENOM = z := ⟨_, rfl⟩
        rw [hzz] at hdx ⊢
        have hU : U64 + U64 ≤ U128 := by norm_num [U64, U128]
        omega)]
      dsimp only
      rw [if_pos hz0]

/-- C1 witness: swapping 100 of token0 into the (1000, 1000) fee-free pool
pays out `1000 * 100 / 1200 = 83`. -/
theorem swap_cp_pricing_witness :
    ∃ fee vol slip sh,
      compute_dynamic_fee swapPool true 100
        (if true then swapPool.reserve0 + 100 else swapPool.reserve0)
        (if true then swapPool.reserve1 else swapPool.reserve1 + 100) =
          Except.ok (fee, vol, slip, sh) ∧
      (83 : Nat) = swap_out
        (if true then swapPool.reserve0 + 100 else swapPool.reserve1 + 100)
        (if true then swapPool.reserve1 else swapPool.reserve0) fee 100 ∧
      0 < (83 : Nat) :=
  (swap_cp_pricing swapPool true 100).1
    { swapPool with reserve0 := 1100, reserve1 := 917 } 83 (by rfl)

/-! ## C3: volatility circuit breaker -/

/-- Core of the breaker: a swap whose fee computation succeeds with a
volatility signal above the threshold is rejected with `VolTooHigh`. -/
lemma swap_vol_err (pool : Pool) (d : Bool) (a fee vol slip sh : Nat)
    (ha : a ≠ 0)
    (hw : (if d then pool.reserve0 else pool.reserve1) + a < U64)
    (h0 : 0 < (if d then pool.reserve0 + a else pool.reserve0))
    (h1 : 0 < (if d then pool.reserve1 else pool.reserve1 + a))
    (hfee : compute_dynamic_fee pool d a
      (if d then pool.reserve0 + a else pool.reserve0)
      (if d then pool.reserve1 else pool.reserve1 + a) =
        Except.ok (fee, vol, slip, sh))
    (hvol : pool.breaker_vol_threshold_1e12 < vol) :
    swap pool d a = Except.error AmmError.VolTooHigh := by
  cases d
  case true =>
    simp only [ite_true, ite_false] at hw h0 h1 hfee
    unfold swap
    simp only [ite_true, ite_false]
    rw [if_neg ha, if_neg (by omega : ¬(pool.reserve0 + a ≥ U64)),
      if_neg (not_not_intro ⟨h0, h1⟩), hfee]
    dsimp only
    rw [if_pos (not_le.2 hvol)]
  case false =>
    simp only [show ((false : Bool) = true) = False from eq_false (by decide),
      if_false, ite_true, ite_false] at hw h0 h1 hfee
    unfold swap
    simp only [show ((false : Bool) = true) = False from eq_false (by decide),
      if_false, ite_true, ite_false]
    rw [if_neg ha, if_neg (by omega : ¬(pool.reserve1 + a ≥ U64)),
      if_neg (not_not_intro ⟨h0, h1⟩), hfee]
    dsimp only
    rw [if_pos (not_le.2 hvol)]

/-- C3 (amended): when `compute_dynamic_fee` succeeds and its volatility
signal exceeds `breaker_vol_threshold`, the swap fails with `VolTooHigh`
and the committed pool state (reserves, EMA, LP supply - and, since vault
balances mirror the reserves, token balances) is exactly the pre-call
state.  (When an intermediate 128-bit multiplication overflows before the
breaker check, the swap instead fails with `MathOverflow` - see the
counterexample - still changing no state.) -/
theorem breaker_rejects_high_vol (pool : Pool) (d : Bool)
    (a fee vol slip sh : Nat) (ha : a ≠ 0)
    (hw : (if d then pool.reserve0 else pool.reserve1) + a < U64)
    (h0 : 0 < (if d then pool.reserve0 + a else pool.reserve0))
    (h1 : 0 < (if d then pool.reserve1 else pool.reserve1 + a))
    (hfee : compute_dynamic_fee pool d a
      (if d then pool.reserve0 + a else pool.reserve0)
      (if d then pool.reserve1 else pool.reserve1 + a) =
        Except.ok (fee, vol, slip, sh))
    (hvol : pool.breaker_vol_threshold_1e12 < vol) :
    swap pool d a = Except.error AmmError.VolTooHigh ∧
    run_swap pool d a = pool := by
  have hsw := swap_vol_err pool d a fee vol slip sh ha hw h0 h1 hfee hvol
  refine ⟨hsw, ?_⟩
  unfold run_swap
  rw [hsw]

/-- C3 witness: the spec's own example - `ema = 1e12`, threshold `0.1e12`,
swapping 100 of token0 against pre-swap reserves (900, 1200) moves the
post-deposit spot price to `1.2e12` (20% deviation), and the swap is
rejected with `VolTooHigh`, state unchanged. -/
theorem breaker_rejects_high_vol_witness :
    swap breakerPool true 100 = Except.error AmmError.VolTooHigh ∧
    run_swap breakerPool true 100 = breakerPool :=
  breaker_rejects_high_vol breakerPool true 100 0 200000000000 90909090909
    999999000001 (by norm_num)
    (by norm_num [breakerPool, emptyPool, U64])
    (by norm_num [breakerPool, emptyPool])
    (by norm_num [breakerPool, emptyPool])
    (by rfl)
    (by norm_num [breakerPool, emptyPool])

/-- C3 counterexample: with `ema_price = 1` and post-deposit reserves
`(1, 4e14)`, the mathematical volatility signal
`|spot - ema| * SCALE / ema` is astronomically above the threshold 0, yet
the swap fails with `MathOverflow` (the signal's 128-bit multiplication
overflows before the breaker is consulted), not with `VolTooHigh` as the
claim requires. -/
theorem breaker_overflow_cex :
    spot_price_1e12 (overflowPool.reserve0 + 1) overflowPool.reserve1 =
      Except.ok 8295686913247936512 ∧
    overflowPool.breaker_vol_threshold_1e12 <
      (8295686913247936512 - overflowPool.ema_price_1e12) * SCALE /
        overflowPool.ema_price_1e12 ∧
    swap overflowPool true 1 = Except.error AmmError.MathOverflow ∧
    AmmError.MathOverflow ≠ AmmError.VolTooHigh := by
  refine ⟨by rfl, by norm_num [overflowPool, emptyPool, SCALE], by rfl,
    by decide⟩

/-! ## Liquidity operations: shape lemmas -/

lemma add_ok_shape {pool : Pool} {a0 a1 : Nat} {p' : Pool} {s : Nat}
    (h : add_liquidity pool a0 a1 = Except.ok (p', s)) :
    0 < a0 ∧ 0 < a1 ∧
    pool.reserve0 + a0 < U64 ∧ pool.reserve1 + a1 < U64 ∧
    s ≠ 0 ∧ pool.total_lp_supply + s < U64 ∧
    p'.reserve0 = pool.reserve0 + a0 ∧
    p'.reserve1 = pool.reserve1 + a1 ∧
    p'.total_lp_supply = pool.total_lp_supply + s ∧
    (0 < pool.reserve0 → 0 < pool.reserve1 →
      pool.reserve0 * a1 = pool.reserve1 * a0) ∧
    (pool.total_lp_supply = 0 →
      s = isqrt ((pool.reserve0 + a0) * (pool.reserve1 + a1)) % U64) ∧
    (pool.total_lp_supply ≠ 0 →
      s = min (a0 * pool.total_lp_supply / pool.reserve0)
          (a1 * pool.total_lp_supply / pool.reserve1) % U64) := by
  unfold add_liquidity at h
  split at h
  next c1 => exact Except.noConfusion h
  next c1 =>
  push_neg at c1
  split at h
  next c2 => exact Except.noConfusion h
  next c2 =>
  split at h
  next c3 => exact Except.noConfusion h
  next c3 =>
  split at h
  next c4 => exact Except.noConfusion h
  next c4 =>
  dsimp only at h
  split at h
  next e heq => exact Except.noConfusion h
  next shares ema1 heq =>
  split at h
  next c5 => exact Except.noConfusion h
  next c5 =>
  split at h
  next c6 => exact Except.noConfusion h
  next c6 =>
  split at h
  next c7 =>
    split at h
    next e hsp2 => exact Except.noConfusion h
    next price hsp2 =>
    simp only [Except.ok.injEq, Prod.mk.injEq] at h
    obtain ⟨hp', hs⟩ := h
    subst hs
    refine ⟨by omega, by omega, by omega, by omega, c5, by omega,
      by rw [← hp'], by rw [← hp'], by rw [← hp'], ?_, ?_, ?_⟩
    · intro h0 h1
      by_contra hne
      exact c2 ⟨h0, h1, hne⟩
    · intro hsup
      rw [if_pos hsup] at heq
      rcases hck : checked_mul (pool.reserve0 + a0) (pool.reserve1 + a1)
        with e | kv
      · rw [hck] at heq; exact Except.noConfusion heq
      rw [hck] at heq
      dsimp only at heq
      obtain ⟨hkv, -⟩ := checked_mul_ok hck
      subst hkv
      split at heq
      next hema =>
        split at heq
        next e hsp => exact Except.noConfusion heq
        next sp hsp =>
          simp only [Except.ok.injEq, Prod.mk.injEq] at heq
          exact heq.1.symm
      next hema =>
        simp only [Except.ok.injEq, Prod.mk.injEq] at heq
        exact heq.1.symm
    · intro hsup
      rw [if_neg hsup] at heq
      rcases hdx : checked_mul a0 pool.total_lp_supply with e | dxv
      · rw [hdx] at heq; exact Except.noConfusion heq
      rw [hdx] at heq
      dsimp only at heq
      rcases hdy : checked_mul a1 pool.total_lp_supply with e | dyv
      · rw [hdy] at heq; exact Except.noConfusion heq
      rw [hdy] at heq
      dsimp only at heq
      obtain ⟨hdxv, -⟩ := checked_mul_ok hdx
      obtain ⟨hdyv, -⟩ := checked_mul_ok hdy
      subst hdxv
      subst hdyv
      simp only [Except.ok.injEq, Prod.mk.injEq] at heq
      exact heq.1.symm
  next c7 => exact absurd ⟨by omega, by omega⟩ c7


lemma checked_mul_eq_err {a b : Nat} (h : ¬ a * b < U128) :
    checked_mul a b = Except.error AmmError.MathOverflow := by
  unfold checked_mul
  exact if_neg h

lemma ema_update_self {e alpha : Nat} (he : e < U64) :
    ema_update e alpha e = e := by
  unfold ema_update
  rw [if_pos (le_refl e)]
  dsimp only
  have h0 : min ((e - e) * alpha) (U128 - 1) / SCALE = 0 := by simp
  rw [h0, Nat.add_zero,
    min_eq_left (le_trans (Nat.le_of_lt he) (by norm_num [U64, U128])),
    Nat.mod_eq_of_lt he]

lemma add_bad_ratio {pool : Pool} {a0 a1 : Nat} (ha0 : 0 < a0) (ha1 : 0 < a1)
    (h0 : 0 < pool.reserve0) (h1 : 0 < pool.reserve1)
    (hne : pool.reserve0 * a1 ≠ pool.reserve1 * a0) :
    add_liquidity pool a0 a1 = Except.error AmmError.BadRatio := by
  unfold add_liquidity
  rw [if_neg (not_not_intro ⟨ha0, ha1⟩), if_pos ⟨h0, h1, hne⟩]

lemma add_ratio_cases {pool : Pool} {a0 a1 : Nat} (ha0 : 0 < a0)
    (ha1 : 0 < a1) (heqr : pool.reserve0 * a1 = pool.reserve1 * a0) :
    (∃ p' s, add_liquidity pool a0 a1 = Except.ok (p', s)) ∨
    add_liquidity pool a0 a1 = Except.error AmmError.ZeroShares ∨
    add_liquidity pool a0 a1 = Except.error AmmError.TokenOverflow ∨
    add_liquidity pool a0 a1 = Except.error AmmError.MathOverflow := by
  unfold add_liquidity
  rw [if_neg (not_not_intro ⟨ha0, ha1⟩),
    if_neg (by rintro ⟨-, -, hne⟩; exact hne heqr)]
  by_cases c3 : pool.reserve0 + a0 ≥ U64
  · rw [if_pos c3]; right; right; left; rfl
  rw [if_neg c3]
  by_cases c4 : pool.reserve1 + a1 ≥ U64
  · rw [if_pos c4]; right; right; left; rfl
  rw [if_neg c4]
  dsimp only
  by_cases hsup : pool.total_lp_supply = 0
  · rw [if_pos hsup,
      checked_mul_eq_ok (show (pool.reserve0 + a0) * (pool.reserve1 + a1) < U128 by
        calc (pool.reserve0 + a0) * (pool.reserve1 + a1)
            ≤ (U64 - 1) * (U64 - 1) := Nat.mul_le_mul (by omega) (by omega)
        _ < U128 := by norm_num [U64, U128])]
    dsimp only
    by_cases hema : pool.ema_price_1e12 = 0
    · rw [if_pos hema, spot_price_ok (by omega) (by omega) (by omega)]
      dsimp only
      by_cases hz : isqrt ((pool.reserve0 + a0) * (pool.reserve1 + a1)) % U64 = 0
      · rw [if_pos hz]; right; left; rfl
      rw [if_neg hz]
      by_cases hs64 : pool.total_lp_supply +
          isqrt ((pool.reserve0 + a0) * (pool.reserve1 + a1)) % U64 ≥ U64
      · rw [if_pos hs64]; right; right; right; rfl
      rw [if_neg hs64, if_pos ⟨by omega, by omega⟩]
      left; exact ⟨_, _, rfl⟩
    · rw [if_neg hema]
      dsimp only
      by_cases hz : isqrt ((pool.reserve0 + a0) * (pool.reserve1 + a1)) % U64 = 0
      · rw [if_pos hz]; right; left; rfl
      rw [if_neg hz]
      by_cases hs64 : pool.total_lp_supply +
          isqrt ((pool.reserve0 + a0) * (pool.reserve1 + a1)) % U64 ≥ U64
      · rw [if_pos hs64]; right; right; right; rfl
      rw [if_neg hs64, if_pos ⟨by omega, by omega⟩,
        spot_price_ok (by omega) (by omega) (by omega)]
      left; exact ⟨_, _, rfl⟩
  · rw [if_neg hsup]
    by_cases hdx : a0 * pool.total_lp_supply < U128
    · rw [checked_mul_eq_ok hdx]
      dsimp only
      by_cases hdy : a1 * pool.total_lp_supply < U128
      · rw [checked_mul_eq_ok hdy]
        dsimp only
        by_cases hz : min (a0 * pool.total_lp_supply / pool.reserve0)
            (a1 * pool.total_lp_supply / pool.reserve1) % U64 = 0
        · rw [if_pos hz]; right; left; rfl
        rw [if_neg hz]
        by_cases hs64 : pool.total_lp_supply +
            min (a0 * pool.total_lp_supply / pool.reserve0)
              (a1 * pool.total_lp_supply / pool.reserve1) % U64 ≥ U64
        · rw [if_pos hs64]; right; right; right; rfl
        rw [if_neg hs64, if_pos ⟨by omega, by omega⟩,
          spot_price_ok (by omega) (by omega) (by omega)]
        left; exact ⟨_, _, rfl⟩
      · rw [checked_mul_eq_err hdy]; right; right; right; rfl
    · rw [checked_mul_eq_err hdx]
      right; right; right; rfl


lemma add_first_deposit {pool : Pool} {a0 a1 : Nat} {p' : Pool} {s : Nat}
    (hr0 : pool.reserve0 = 0) (hr1 : pool.reserve1 = 0)
    (hsup : pool.total_lp_supply = 0)
    (h : add_liquidity pool a0 a1 = Except.ok (p', s)) :
    s = isqrt (a0 * a1) % U64 ∧
    (pool.ema_price_1e12 = 0 →
      p'.ema_price_1e12 = a1 * SCALE / a0 % U64) ∧
    (pool.ema_price_1e12 ≠ 0 →
      p'.ema_price_1e12 = ema_update pool.ema_price_1e12 pool.ema_alpha_1e12
        (a1 * SCALE / a0 % U64)) := by
  unfold add_liquidity at h
  rw [hr0, hr1, hsup] at h
  simp only [Nat.zero_add] at h
  split at h
  next c1 => exact Except.noConfusion h
  next c1 =>
  push_neg at c1
  rw [if_neg (by simp : ¬((0:Nat) > 0 ∧ (0:Nat) > 0 ∧ 0 * a1 ≠ 0 * a0))] at h
  split at h
  next c3 => exact Except.noConfusion h
  next c3 =>
  split at h
  next c4 => exact Except.noConfusion h
  next c4 =>
  try dsimp only at h
  simp only [if_true] at h
  rw [checked_mul_eq_ok (show a0 * a1 < U128 by
    calc a0 * a1 ≤ (U64 - 1) * (U64 - 1) := Nat.mul_le_mul (by omega) (by omega)
    _ < U128 := by norm_num [U64, U128])] at h
  try dsimp only at h
  by_cases hema : pool.ema_price_1e12 = 0
  · rw [if_pos hema, spot_price_ok (by omega) (by omega) (by omega)] at h
    try dsimp only at h
    split at h
    next c5 => exact Except.noConfusion h
    next c5 =>
    split at h
    next c6 => exact Except.noConfusion h
    next c6 =>
    simp only [Except.ok.injEq, Prod.mk.injEq] at h
    obtain ⟨hp', hs⟩ := h
    subst hp'
    refine ⟨hs.symm, fun _ => ?_, fun hne => absurd hema hne⟩
    exact ema_update_self (Nat.mod_lt _ (by norm_num [U64]))
  · rw [if_neg hema] at h
    try dsimp only at h
    split at h
    next c5 => exact Except.noConfusion h
    next c5 =>
    split at h
    next c6 => exact Except.noConfusion h
    next c6 =>
    rw [spot_price_ok (by omega) (by omega) (by omega)] at h
    try dsimp only at h
    simp only [Except.ok.injEq, Prod.mk.injEq] at h
    obtain ⟨hp', hs⟩ := h
    subst hp'
    exact ⟨hs.symm, fun he => absurd he hema, fun _ => rfl⟩

/-! ## Babylonian square root correctness -/

lemma sqrt_le_newton (y : Nat) {x : Nat} (hx : 0 < x) :
    Nat.sqrt y ≤ (y / x + x) / 2 := by
  have hs2 : Nat.sqrt y * Nat.sqrt y ≤ y := Nat.sqrt_le y
  rw [Nat.le_div_iff_mul_le (by norm_num : 0 < 2)]
  by_cases hcase : 2 * Nat.sqrt y ≤ x
  · calc Nat.sqrt y * 2 ≤ x := by omega
    _ ≤ y / x + x := Nat.le_add_left x (y / x)
  · push_neg at hcase
    have key : (2 * Nat.sqrt y - x) * x ≤ Nat.sqrt y * Nat.sqrt y := by
      zify [le_of_lt hcase]
      nlinarith [sq_nonneg ((x : Int) - Nat.sqrt y)]
    have hdiv : 2 * Nat.sqrt y - x ≤ y / x := by
      rw [Nat.le_div_iff_mul_le hx]
      exact le_trans key hs2
    obtain ⟨q, hq⟩ : ∃ q, y / x = q := ⟨_, rfl⟩
    rw [hq] at hdiv ⊢
    omega

lemma newton_lt (y : Nat) {x : Nat} (hx : Nat.sqrt y < x) :
    (y / x + x) / 2 < x := by
  have hx0 : 0 < x := by omega
  have hy : y < x * x := by
    calc y < (Nat.sqrt y + 1) * (Nat.sqrt y + 1) := Nat.lt_succ_sqrt y
    _ ≤ x * x := Nat.mul_le_mul (by omega) (by omega)
  have hdiv : y / x < x := (Nat.div_lt_iff_lt_mul hx0).2 hy
  obtain ⟨q, hq⟩ : ∃ q, y / x = q := ⟨_, rfl⟩
  rw [hq] at hdiv ⊢
  omega

lemma isqrtAux_eq (y : Nat) (hy : 0 < y) :
    ∀ x, 0 < x → Nat.sqrt y ≤ x →
      isqrtAux y ((y / x + x) / 2) x = Nat.sqrt y := by
  intro x
  induction x using Nat.strong_induction_on with
  | _ x ih =>
    intro hx hsx
    rw [isqrtAux]
    split
    next hlt =>
      exact ih _ hlt
        (lt_of_lt_of_le (Nat.sqrt_pos.2 hy) (sqrt_le_newton y hx))
        (sqrt_le_newton y hx)
    next hnlt =>
      push_neg at hnlt
      by_contra hne
      have hslt : Nat.sqrt y < x := lt_of_le_of_ne hsx (fun he => hne he.symm)
      exact absurd (newton_lt y hslt) (by omega)

lemma sqrt_le_half_succ (y : Nat) : Nat.sqrt y ≤ y / 2 + 1 := by
  by_cases h : Nat.sqrt y ≤ 1
  · omega
  · push_neg at h
    have h2 : Nat.sqrt y * 2 ≤ y := by
      calc Nat.sqrt y * 2 ≤ Nat.sqrt y * Nat.sqrt y :=
            Nat.mul_le_mul_left _ (by omega)
      _ ≤ y := Nat.sqrt_le y
    have h3 : Nat.sqrt y ≤ y / 2 := by
      rw [Nat.le_div_iff_mul_le (by norm_num : 0 < 2)]
      exact h2
    omega

/-- The source's Babylonian loop agrees with the mathematical floor square
root everywhere except at input 2, where it returns 2. -/
lemma isqrt_eq_sqrt {y : Nat} (hy : y ≠ 2) : isqrt y = Nat.sqrt y := by
  rcases Nat.lt_or_ge y 3 with hlt | hge
  · interval_cases y
    · simp [isqrt]
    · rw [show Nat.sqrt 1 = 1 by decide]
      unfold isqrt
      rw [if_neg (by norm_num), isqrtAux, dif_neg (by norm_num)]
    · exact absurd rfl hy
  · unfold isqrt
    rw [if_neg (by omega : ¬ y = 0), isqrtAux, dif_pos (by omega : y / 2 + 1 < y)]
    exact isqrtAux_eq y (by omega) (y / 2 + 1) (by omega) (sqrt_le_half_succ y)

lemma isqrt_two : isqrt 2 = 2 := by
  unfold isqrt
  rw [if_neg (by norm_num), isqrtAux, dif_neg (by norm_num)]

lemma isqrt_lt_u64 {n : Nat} (hn : n < U128) : isqrt n < U64 := by
  by_cases h2 : n = 2
  · rw [h2, isqrt_two]; norm_num [U64]
  · rw [isqrt_eq_sqrt h2, Nat.sqrt_lt]
    calc n < U128 := hn
    _ = U64 * U64 := by norm_num [U64, U128]

/-! ## C7: EMA updates toward a constant target -/

/-- `n`-fold repetition of `ema_update` toward the constant price `price`. -/
def ema_iter (alpha price : Nat) : Nat → Nat → Nat
  | 0, e => e
  | n + 1, e => ema_iter alpha price n (ema_update e alpha price)

/-- The scaled delta never exceeds the raw difference. -/
lemma scaled_le {d alpha : Nat} (ha : alpha ≤ SCALE) : d * alpha / SCALE ≤ d := by
  calc d * alpha / SCALE ≤ d * SCALE / SCALE :=
        Nat.div_le_div_right (Nat.mul_le_mul_left _ ha)
  _ = d := Nat.mul_div_cancel _ (by norm_num [SCALE])

/-- Closed form of `ema_update` when the price is at or above the EMA and
everything is in u64 range: no saturation, no wrap. -/
lemma ema_update_up_eq {e alpha p : Nat} (hep : e ≤ p) (hp : p < U64)
    (ha : alpha ≤ SCALE) :
    ema_update e alpha p = e + (p - e) * alpha / SCALE := by
  unfold ema_update
  rw [if_pos hep]
  dsimp only
  have hsat : (p - e) * alpha ≤ U128 - 1 := by
    calc (p - e) * alpha ≤ (U64 - 1) * SCALE :=
          Nat.mul_le_mul (by omega) ha
    _ ≤ U128 - 1 := by norm_num [U64, U128, SCALE]
  rw [min_eq_left hsat]
  have hdle : (p - e) * alpha / SCALE ≤ p - e := scaled_le ha
  have hlt : e + (p - e) * alpha / SCALE < U64 :=
    lt_of_le_of_lt
      (le_trans (Nat.add_le_add_left hdle e) (by omega : e + (p - e) ≤ p)) hp
  have hle128 : e + (p - e) * alpha / SCALE ≤ U128 - 1 :=
    le_trans (Nat.le_of_lt hlt) (by norm_num [U64, U128])
  rw [min_eq_left hle128]
  exact Nat.mod_eq_of_lt hlt

/-- Closed form of `ema_update` when the price is at or below the EMA. -/
lemma ema_update_down_eq {e alpha p : Nat} (hpe : p ≤ e) (he : e < U64)
    (ha : alpha ≤ SCALE) :
    ema_update e alpha p = e - (e - p) * alpha / SCALE := by
  rcases eq_or_lt_of_le hpe with rfl | hlt
  · rw [ema_update_up_eq (le_refl p) he ha]
    simp
  · unfold ema_update
    rw [if_neg (by omega)]
    dsimp only
    have hsat : (e - p) * alpha ≤ U128 - 1 := by
      calc (e - p) * alpha ≤ (U64 - 1) * SCALE :=
            Nat.mul_le_mul (by omega) ha
      _ ≤ U128 - 1 := by norm_num [U64, U128, SCALE]
    rw [min_eq_left hsat]
    exact Nat.mod_eq_of_lt (lt_of_le_of_lt (Nat.sub_le e _) he)

/-- One EMA step from below lands between the old EMA and the target. -/
lemma ema_step_between_up {e alpha p : Nat} (hep : e ≤ p) (hp : p < U64)
    (ha : alpha ≤ SCALE) :
    e ≤ ema_update e alpha p ∧ ema_update e alpha p ≤ p := by
  rw [ema_update_up_eq hep hp ha]
  refine ⟨Nat.le_add_right _ _, ?_⟩
  have hdle : (p - e) * alpha / SCALE ≤ p - e := scaled_le ha
  obtain ⟨d, hd⟩ : ∃ d, (p - e) * alpha / SCALE = d := ⟨_, rfl⟩
  rw [hd] at hdle ⊢
  omega

/-- One EMA step from above lands between the target and the old EMA. -/
lemma ema_step_between_down {e alpha p : Nat} (hpe : p ≤ e) (he : e < U64)
    (ha : alpha ≤ SCALE) :
    p ≤ ema_update e alpha p ∧ ema_update e alpha p ≤ e := by
  rw [ema_update_down_eq hpe he ha]
  have hdle : (e - p) * alpha / SCALE ≤ e - p := scaled_le ha
  obtain ⟨d, hd⟩ : ∃ d, (e - p) * alpha / SCALE = d := ⟨_, rfl⟩
  rw [hd] at hdle ⊢
  omega

/-- Below the truncation deadband the EMA is a fixed point. -/
lemma ema_fix_up {e alpha p : Nat} (hep : e ≤ p) (hp : p < U64)
    (ha : alpha ≤ SCALE) (hsm : (p - e) * alpha < SCALE) :
    ema_update e alpha p = e := by
  rw [ema_update_up_eq hep hp ha, Nat.div_eq_of_lt hsm]
  rfl

/-- Below the truncation deadband the EMA is a fixed point (from above). -/
lemma ema_fix_down {e alpha p : Nat} (hpe : p ≤ e) (he : e < U64)
    (ha : alpha ≤ SCALE) (hsm : (e - p) * alpha < SCALE) :
    ema_update e alpha p = e := by
  rw [ema_update_down_eq hpe he ha, Nat.div_eq_of_lt hsm]
  rfl

/-- A fixed point of one step is a fixed point of the iteration. -/
lemma ema_iter_fix {e alpha p : Nat} (h : ema_update e alpha p = e) :
    ∀ n, ema_iter alpha p n e = e := by
  intro n
  induction n with
  | zero => rfl
  | succ n ih =>
    show ema_iter alpha p n (ema_update e alpha p) = e
    rw [h]
    exact ih

/-- Starting at or below the target, the iteration is eventually constant
at a value between the start and the target, within the truncation
deadband of the target. -/
lemma ema_stabilizes_up (alpha p : Nat) (ha : alpha ≤ SCALE) (hp : p < U64) :
    ∀ g e, e ≤ p → p - e ≤ g →
      ∃ L, (∀ n, g ≤ n → ema_iter alpha p n e = L) ∧
        e ≤ L ∧ L ≤ p ∧ (p - L) * alpha < SCALE := by
  intro g
  induction g with
  | zero =>
    intro e hep hg
    have hepq : e = p := by omega
    subst hepq
    refine ⟨e, fun n _ => ?_, le_refl e, le_refl e, ?_⟩
    · exact ema_iter_fix (ema_fix_up (le_refl e) hp ha (by simp [SCALE])) n
    · simp [SCALE]
  | succ g ih =>
    intro e hep hg
    by_cases hsm : (p - e) * alpha < SCALE
    · refine ⟨e, fun n _ => ?_, le_refl e, hep, hsm⟩
      exact ema_iter_fix (ema_fix_up hep hp ha hsm) n
    · push_neg at hsm
      have hstep : ema_update e alpha p = e + (p - e) * alpha / SCALE :=
        ema_update_up_eq hep hp ha
      have h1 : 1 ≤ (p - e) * alpha / SCALE := by
        rw [Nat.le_div_iff_mul_le (by norm_num [SCALE] : 0 < SCALE)]
        rw [one_mul]
        exact hsm
      have h2 : (p - e) * alpha / SCALE ≤ p - e := scaled_le ha
      obtain ⟨d, hd⟩ : ∃ d, (p - e) * alpha / SCALE = d := ⟨_, rfl⟩
      rw [hd] at hstep h1 h2
      have hep' : e + d ≤ p := by omega
      have hg' : p - (e + d) ≤ g := by omega
      obtain ⟨L, hL, hb1, hb2, hs⟩ := ih (e + d) hep' hg'
      refine ⟨L, fun n hn => ?_, by omega, hb2, hs⟩
      obtain ⟨k, rfl⟩ : ∃ k, n = k + 1 := ⟨n - 1, by omega⟩
      show ema_iter alpha p k (ema_update e alpha p) = L
      rw [hstep]
      exact hL k (by omega)

/-- Starting at or above the target, the iteration is eventually constant
at a value between the target and the start, within the truncation
deadband of the target. -/
lemma ema_stabilizes_down (alpha p : Nat) (ha : alpha ≤ SCALE) (hp : p < U64) :
    ∀ g e, p ≤ e → e < U64 → e - p ≤ g →
      ∃ L, (∀ n, g ≤ n → ema_iter alpha p n e = L) ∧
        p ≤ L ∧ L ≤ e ∧ (L - p) * alpha < SCALE := by
  intro g
  induction g with
  | zero =>
    intro e hpe he hg
    have hepq : e = p := by omega
    subst hepq
    refine ⟨e, fun n _ => ?_, le_refl e, le_refl e, ?_⟩
    · exact ema_iter_fix (ema_fix_down (le_refl e) he ha (by simp [SCALE])) n
    · simp [SCALE]
  | succ g ih =>
    intro e hpe he hg
    by_cases hsm : (e - p) * alpha < SCALE
    · refine ⟨e, fun n _ => ?_, hpe, le_refl e, hsm⟩
      exact ema_iter_fix (ema_fix_down hpe he ha hsm) n
    · push_neg at hsm
      have hstep : ema_update e alpha p = e - (e - p) * alpha / SCALE :=
        ema_update_down_eq hpe he ha
      have h1 : 1 ≤ (e - p) * alpha / SCALE := by
        rw [Nat.le_div_iff_mul_le (by norm_num [SCALE] : 0 < SCALE)]
        rw [one_mul]
        exact hsm
      have h2 : (e - p) * alpha / SCALE ≤ e - p := scaled_le ha
      obtain ⟨d, hd⟩ : ∃ d, (e - p) * alpha / SCALE = d := ⟨_, rfl⟩
      rw [hd] at hstep h1 h2
      have hpe' : p ≤ e - d := by omega
      have hg' : (e - d) - p ≤ g := by omega
      obtain ⟨L, hL, hb1, hb2, hs⟩ := ih (e - d) hpe' (by omega) hg'
      refine ⟨L, fun n hn => ?_, hb1, by omega, hs⟩
      obtain ⟨k, rfl⟩ : ∃ k, n = k + 1 := ⟨n - 1, by omega⟩
      show ema_iter alpha p k (ema_update e alpha p) = L
      rw [hstep]
      exact hL k (by omega)

/-- C7 counterexample: with `alpha = 1` (in the claimed range `(0, 1e12]`),
target price 1000 and EMA 0, the scaled delta `1000 * 1 / 1e12` truncates
to 0, so the EMA never moves: the sequence does not converge to the target.
-/
theorem ema_no_convergence_cex :
    ema_update 0 1 1000 = 0 ∧ ema_iter 1 1000 10 0 = 0 ∧
    (0 : Nat) < 1 ∧ (1 : Nat) ≤ SCALE ∧ (0 : Nat) ≠ 1000 := by
  refine ⟨rfl, rfl, by norm_num, by norm_num [SCALE], by norm_num⟩

/-- C7 (amended): for `alpha ∈ (0, SCALE]` and u64 EMA/price, each update
moves the EMA weakly toward the target and never crosses it; with
`alpha = SCALE` the EMA lands exactly on the target in one step; and the
iteration is eventually constant at a limit `L` between the start and the
target whose remaining gap satisfies `|p - L| * alpha < SCALE` (so exact
convergence holds only up to the truncation deadband, not to `p` itself in
general). -/
theorem ema_monotone_stabilizes (alpha p e : Nat) (h0 : 0 < alpha)
    (ha : alpha ≤ SCALE) (hp : p < U64) (he : e < U64) :
    (e ≤ p → e ≤ ema_update e alpha p ∧ ema_update e alpha p ≤ p) ∧
    (p ≤ e → p ≤ ema_update e alpha p ∧ ema_update e alpha p ≤ e) ∧
    (alpha = SCALE → ema_update e alpha p = p) ∧
    ∃ L, (∀ n, max e p ≤ n → ema_iter alpha p n e = L) ∧
      min e p ≤ L ∧ L ≤ max e p ∧
      (p - L) * alpha < SCALE ∧ (L - p) * alpha < SCALE := by
  refine ⟨fun hep => ema_step_between_up hep hp ha,
          fun hpe => ema_step_between_down hpe he ha, ?_, ?_⟩
  · rintro rfl
    rcases le_total e p with hep | hpe
    · rw [ema_update_up_eq hep hp (le_refl _),
        Nat.mul_div_cancel _ (by norm_num [SCALE])]
      omega
    · rw [ema_update_down_eq hpe he (le_refl _),
        Nat.mul_div_cancel _ (by norm_num [SCALE])]
      omega
  · rcases le_total e p with hep | hpe
    · obtain ⟨L, hL, hb1, hb2, hs⟩ :=
        ema_stabilizes_up alpha p ha hp (max e p) e hep (by omega)
      refine ⟨L, hL, by omega, by omega, hs, ?_⟩
      have : L ≤ p := hb2
      have : (L - p) = 0 := by omega
      rw [this]
      simp [SCALE]
    · obtain ⟨L, hL, hb1, hb2, hs⟩ :=
        ema_stabilizes_down alpha p ha hp (max e p) e hpe he (by omega)
      refine ⟨L, hL, by omega, by omega, ?_, hs⟩
      have : (p - L) = 0 := by omega
      rw [this]
      simp [SCALE]

/-- C7 witness at `alpha = 0.5e12`, target 1000, start 0. -/
theorem ema_monotone_stabilizes_witness :
    ((0 : Nat) ≤ 1000 →
      0 ≤ ema_update 0 500000000000 1000 ∧
      ema_update 0 500000000000 1000 ≤ 1000) ∧
    ((1000 : Nat) ≤ 0 →
      1000 ≤ ema_update 0 500000000000 1000 ∧
      ema_update 0 500000000000 1000 ≤ 0) ∧
    ((500000000000 : Nat) = SCALE → ema_update 0 500000000000 1000 = 1000) ∧
    ∃ L, (∀ n, max 0 1000 ≤ n → ema_iter 500000000000 1000 n 0 = L) ∧
      min 0 1000 ≤ L ∧ L ≤ max 0 1000 ∧
      (1000 - L) * 500000000000 < SCALE ∧ (L - 1000) * 500000000000 < SCALE :=
  ema_monotone_stabilizes 500000000000 1000 0 (by norm_num)
    (by norm_num [SCALE]) (by norm_num [U64]) (by norm_num [U64])


/-! ## C6: first deposit into an empty pool -/

/-- C6 counterexample: depositing (1, 2) into an empty pool mints
`isqrt(2) = 2` shares - the Babylonian loop without the Uniswap small-value
special case exits immediately at input 2 - while the claim's
`floor(sqrt(1*2)) = 1`. -/
theorem first_deposit_sqrt_cex :
    add_liquidity emptyPool 1 2 =
      Except.ok (⟨2, 1, 2, 0, 0, 0, 0, 0, 2000000000000, 0, 0⟩, 2) ∧
    Nat.sqrt (1 * 2) = 1 ∧ (2 : Nat) ≠ 1 := by
  refine ⟨?_, by norm_num, by decide⟩
  simp [add_liquidity, emptyPool, checked_mul, spot_price_1e12, isqrt,
    isqrtAux, ema_update, SCALE, U64, U128, U16]

/-- C6 (amended): a first deposit into an empty pool mints
`isqrt(bal0 * bal1)` shares, where `isqrt` is the source's Babylonian loop:
equal to `floor(sqrt(bal0 * bal1))` for every product except 2 (there it
mints 2); and `ema_price` is set to the resulting spot price only when
`ema_price` was 0 (the first-ever provisioning) - refilling a drained pool
whose stale `ema_price` is nonzero instead EMA-smooths toward the new spot
price. -/
theorem first_deposit_shares_ema (pool : Pool) (a0 a1 : Nat) (p' : Pool)
    (s : Nat) (hr0 : pool.reserve0 = 0) (hr1 : pool.reserve1 = 0)
    (hsup : pool.total_lp_supply = 0)
    (hadd : add_liquidity pool a0 a1 = Except.ok (p', s)) :
    s = isqrt (a0 * a1) ∧
    (a0 * a1 ≠ 2 → s = Nat.sqrt (a0 * a1)) ∧
    (pool.ema_price_1e12 = 0 → p'.ema_price_1e12 = a1 * SCALE / a0 % U64) ∧
    (pool.ema_price_1e12 ≠ 0 → p'.ema_price_1e12 =
      ema_update pool.ema_price_1e12 pool.ema_alpha_1e12
        (a1 * SCALE / a0 % U64)) := by
  obtain ⟨-, -, hb0, hb1, -, -, -, -, -, -, -, -⟩ := add_ok_shape hadd
  obtain ⟨hs, hema0, hema1⟩ := add_first_deposit hr0 hr1 hsup hadd
  rw [hr0] at hb0
  rw [hr1] at hb1
  have hk : a0 * a1 < U128 := by
    calc a0 * a1 ≤ (U64 - 1) * (U64 - 1) := Nat.mul_le_mul (by omega) (by omega)
    _ < U128 := by norm_num [U64, U128]
  have hs' : s = isqrt (a0 * a1) := by
    rw [hs, Nat.mod_eq_of_lt (isqrt_lt_u64 hk)]
  refine ⟨hs', fun h2 => ?_, hema0, hema1⟩
  rw [hs', isqrt_eq_sqrt h2]

/-- C6 witness: depositing (4, 9) into a fresh empty pool mints
`isqrt(36) = 6` shares and sets `ema_price = 2.25e12`. -/
theorem first_deposit_shares_ema_witness :
    (6 : Nat) = isqrt (4 * 9) ∧
    (4 * 9 ≠ 2 → (6 : Nat) = Nat.sqrt (4 * 9)) ∧
    (emptyPool.ema_price_1e12 = 0 →
      (⟨6, 4, 9, 0, 0, 0, 0, 0, 2250000000000, 0, 0⟩ : Pool).ema_price_1e12 =
        9 * SCALE / 4 % U64) ∧
    (emptyPool.ema_price_1e12 ≠ 0 →
      (⟨6, 4, 9, 0, 0, 0, 0, 0, 2250000000000, 0, 0⟩ : Pool).ema_price_1e12 =
        ema_update emptyPool.ema_price_1e12 emptyPool.ema_alpha_1e12
          (9 * SCALE / 4 % U64)) :=
  first_deposit_shares_ema emptyPool 4 9
    ⟨6, 4, 9, 0, 0, 0, 0, 0, 2250000000000, 0, 0⟩ 6 rfl rfl rfl
    (by simp [add_liquidity, emptyPool, checked_mul, spot_price_1e12, isqrt,
      isqrtAux, ema_update, SCALE, U64, U128, U16])

/-! ## C5: exact-ratio gate on deposits -/

/-- C5 counterexample: a pool with reserves (10, 10) but only 1 LP share:
the deposit (5, 5) matches the reserve ratio exactly, yet it is rejected
with `ZeroShares` (the truncated proportional claim `5 * 1 / 10` is 0), so
"accepted iff the ratio matches" fails in the if direction. -/
theorem ratio_not_sufficient_cex :
    ratioPool.reserve0 * 5 = ratioPool.reserve1 * 5 ∧
    0 < ratioPool.reserve0 ∧ 0 < ratioPool.reserve1 ∧
    add_liquidity ratioPool 5 5 = Except.error AmmError.ZeroShares ∧
    AmmError.ZeroShares ≠ AmmError.BadRatio := by
  refine ⟨rfl, by norm_num [ratioPool, emptyPool], by norm_num [ratioPool, emptyPool],
    by rfl, by decide⟩

/-- C5 (amended): a deposit into a funded pool is accepted only if
`reserve0 * amount1 == reserve1 * amount0` exactly; on a mismatch it fails
with `BadRatio`, changing no state; when the ratio matches it is accepted
unless the truncated proportional share count is zero (`ZeroShares`) or a
vault-balance / LP-supply addition overflows. -/
theorem add_liquidity_ratio_gate (pool : Pool) (a0 a1 : Nat)
    (ha0 : 0 < a0) (ha1 : 0 < a1)
    (h0 : 0 < pool.reserve0) (h1 : 0 < pool.reserve1) :
    (pool.reserve0 * a1 ≠ pool.reserve1 * a0 →
      add_liquidity pool a0 a1 = Except.error AmmError.BadRatio ∧
      run_add_liquidity pool a0 a1 = pool) ∧
    (∀ p' s, add_liquidity pool a0 a1 = Except.ok (p', s) →
      pool.reserve0 * a1 = pool.reserve1 * a0) ∧
    (pool.reserve0 * a1 = pool.reserve1 * a0 →
      (∃ p' s, add_liquidity pool a0 a1 = Except.ok (p', s)) ∨
      add_liquidity pool a0 a1 = Except.error AmmError.ZeroShares ∨
      add_liquidity pool a0 a1 = Except.error AmmError.TokenOverflow ∨
      add_liquidity pool a0 a1 = Except.error AmmError.MathOverflow) := by
  refine ⟨fun hne => ?_, fun p' s hok => ?_,
    fun heqr => add_ratio_cases ha0 ha1 heqr⟩
  · have hb := add_bad_ratio ha0 ha1 h0 h1 hne
    refine ⟨hb, ?_⟩
    unfold run_add_liquidity
    rw [hb]
  · obtain ⟨-, -, -, -, -, -, -, -, -, hr, -, -⟩ := add_ok_shape hok
    exact hr h0 h1

/-- Funded pool matching the spec's ratio example: reserves (1000, 2000),
supply 1414. -/
def ratioPool2 : Pool :=
  { emptyPool with
    total_lp_supply := 1414
    reserve0 := 1000
    reserve1 := 2000 }

/-- C5 witness at reserves (1000, 2000) with deposit (10, 20). -/
theorem add_liquidity_ratio_gate_witness :
    (ratioPool2.reserve0 * 20 ≠ ratioPool2.reserve1 * 10 →
      add_liquidity ratioPool2 10 20 = Except.error AmmError.BadRatio ∧
      run_add_liquidity ratioPool2 10 20 = ratioPool2) ∧
    (∀ p' s, add_liquidity ratioPool2 10 20 = Except.ok (p', s) →
      ratioPool2.reserve0 * 20 = ratioPool2.reserve1 * 10) ∧
    (ratioPool2.reserve0 * 20 = ratioPool2.reserve1 * 10 →
      (∃ p' s, add_liquidity ratioPool2 10 20 = Except.ok (p', s)) ∨
      add_liquidity ratioPool2 10 20 = Except.error AmmError.ZeroShares ∨
      add_liquidity ratioPool2 10 20 = Except.error AmmError.TokenOverflow ∨
      add_liquidity ratioPool2 10 20 = Except.error AmmError.MathOverflow) :=
  add_liquidity_ratio_gate ratioPool2 10 20 (by norm_num)
    (by norm_num) (by norm_num [ratioPool2, emptyPool])
    (by norm_num [ratioPool2, emptyPool])

/-! ## C10: withdrawals have no minimum payout -/

/-- Anatomy of a successful `remove_liquidity`. -/
lemma remove_ok_shape {pool : Pool} {shares : Nat} {p' : Pool} {a0 a1 : Nat}
    (h : remove_liquidity pool shares = Except.ok (p', a0, a1)) :
    shares ≠ 0 ∧ shares ≤ pool.total_lp_supply ∧
    a0 = shares * pool.reserve0 / pool.total_lp_supply ∧
    a1 = shares * pool.reserve1 / pool.total_lp_supply ∧
    p'.total_lp_supply = pool.total_lp_supply - shares ∧
    p'.reserve0 = pool.reserve0 - a0 ∧
    p'.reserve1 = pool.reserve1 - a1 := by
  unfold remove_liquidity at h
  split at h
  next c1 => exact Except.noConfusion h
  next c1 =>
  split at h
  next c2 => exact Except.noConfusion h
  next c2 =>
  push_neg at c2
  dsimp only at h
  split at h
  next e h0m => exact Except.noConfusion h
  next a0m h0m =>
  split at h
  next e h1m => exact Except.noConfusion h
  next a1m h1m =>
  obtain ⟨h0e, -⟩ := checked_mul_ok h0m
  obtain ⟨h1e, -⟩ := checked_mul_ok h1m
  subst h0e
  subst h1e
  split at h
  next c7 =>
    split at h
    next e hpr => exact Except.noConfusion h
    next price hpr =>
    simp only [Except.ok.injEq, Prod.mk.injEq] at h
    obtain ⟨hp', ha0, ha1⟩ := h
    subst hp'
    exact ⟨c1, c2, ha0.symm, ha1.symm, rfl, by rw [← ha0], by rw [← ha1]⟩
  next c7 =>
    simp only [Except.ok.injEq, Prod.mk.injEq] at h
    obtain ⟨hp', ha0, ha1⟩ := h
    subst hp'
    exact ⟨c1, c2, ha0.symm, ha1.symm, rfl, by rw [← ha0], by rw [← ha1]⟩

/-- C10: `remove_liquidity` imposes no minimum on the computed payouts:
for every `0 < shares ≤ total_lp_supply` (u64-range state) it succeeds,
burns the shares (supply decremented before payout), and transfers the two
independently truncated payouts - even when one or both are zero; there is
no `AmountOutZero`-style check on the withdrawal leg. -/
theorem remove_liquidity_no_min_payout (pool : Pool) (shares : Nat)
    (h0 : 0 < shares) (hle : shares ≤ pool.total_lp_supply)
    (hw0 : pool.reserve0 < U64) (hw1 : pool.reserve1 < U64)
    (hws : pool.total_lp_supply < U64) :
    ∃ p', remove_liquidity pool shares =
      Except.ok (p', shares * pool.reserve0 / pool.total_lp_supply,
        shares * pool.reserve1 / pool.total_lp_supply) ∧
      p'.total_lp_supply = pool.total_lp_supply - shares ∧
      p'.reserve0 =
        pool.reserve0 - shares * pool.reserve0 / pool.total_lp_supply ∧
      p'.reserve1 =
        pool.reserve1 - shares * pool.reserve1 / pool.total_lp_supply := by
  unfold remove_liquidity
  rw [if_neg (by omega : ¬ shares = 0), if_neg (not_not_intro hle)]
  dsimp only
  rw [checked_mul_eq_ok (show shares * pool.reserve0 < U128 by
    calc shares * pool.reserve0 ≤ (U64 - 1) * (U64 - 1) :=
          Nat.mul_le_mul (by omega) (by omega)
    _ < U128 := by norm_num [U64, U128])]
  dsimp only
  rw [checked_mul_eq_ok (show shares * pool.reserve1 < U128 by
    calc shares * pool.reserve1 ≤ (U64 - 1) * (U64 - 1) :=
          Nat.mul_le_mul (by omega) (by omega)
    _ < U128 := by norm_num [U64, U128])]
  dsimp only
  split
  next c7 =>
    rw [spot_price_ok c7.1 c7.2
      (lt_of_le_of_lt (Nat.sub_le _ _) hw1)]
    exact ⟨_, rfl, rfl, rfl, rfl⟩
  next c7 =>
    exact ⟨_, rfl, rfl, rfl, rfl⟩

/-- C10 witness: burning 50 of 100 shares against vault balances (1, 5)
succeeds and pays `(0, 2)` - a zero payout on asset0 with the shares still
burned. -/
theorem remove_liquidity_no_min_payout_witness :
    (50 * dustPool.reserve0 / dustPool.total_lp_supply = 0) ∧
    ∃ p', remove_liquidity dustPool 50 =
      Except.ok (p', 50 * dustPool.reserve0 / dustPool.total_lp_supply,
        50 * dustPool.reserve1 / dustPool.total_lp_supply) ∧
      p'.total_lp_supply = dustPool.total_lp_supply - 50 ∧
      p'.reserve0 =
        dustPool.reserve0 - 50 * dustPool.reserve0 / dustPool.total_lp_supply ∧
      p'.reserve1 =
        dustPool.reserve1 - 50 * dustPool.reserve1 / dustPool.total_lp_supply :=
  ⟨by rfl,
   remove_liquidity_no_min_payout dustPool 50 (by norm_num)
    (by norm_num [dustPool, emptyPool])
    (by norm_num [dustPool, emptyPool, U64])
    (by norm_num [dustPool, emptyPool, U64])
    (by norm_num [dustPool, emptyPool, U64])⟩


/-! ## C4: the pool is fully empty or fully funded -/

/-- The fully-empty-or-fully-funded invariant of the pool record. -/
def PoolInv (p : Pool) : Prop :=
  (p.reserve0 = 0 ↔ p.total_lp_supply = 0) ∧
  (p.reserve1 = 0 ↔ p.total_lp_supply = 0)

/-- A freshly initialized pool satisfies the invariant. -/
lemma initialize_inv {mn mx b g dl al br : Nat} {p : Pool}
    (h : initialize_pool mn mx b g dl al br = Except.ok p) : PoolInv p := by
  unfold initialize_pool at h
  split_ifs at h
  injection h with h
  subst h
  exact ⟨Iff.rfl, Iff.rfl⟩

/-- `set_params` touches only configuration fields. -/
lemma set_params_inv {pool : Pool} {mn mx b g dl al br : Nat} {p' : Pool}
    (hinv : PoolInv pool)
    (h : set_params pool mn mx b g dl al br = Except.ok p') : PoolInv p' := by
  unfold set_params at h
  split_ifs at h
  injection h with h
  subst h
  exact hinv

/-- A successful deposit leaves a fully funded pool. -/
lemma add_liquidity_inv {pool : Pool} {a0 a1 : Nat} {p' : Pool} {s : Nat}
    (h : add_liquidity pool a0 a1 = Except.ok (p', s)) : PoolInv p' := by
  obtain ⟨ha0, ha1, -, -, hs, -, hr0, hr1, hsup, -, -, -⟩ := add_ok_shape h
  exact ⟨by rw [hr0, hsup]; exact iff_of_false (by omega) (by omega),
         by rw [hr1, hsup]; exact iff_of_false (by omega) (by omega)⟩

/-- A successful withdrawal either drains the pool completely (when all
shares are burned, the truncation-free payout `T * bal / T = bal` empties
both vaults) or leaves every component positive. -/
lemma remove_liquidity_inv {pool : Pool} {shares : Nat} {p' : Pool}
    {a0 a1 : Nat} (hinv : PoolInv pool)
    (h : remove_liquidity pool shares = Except.ok (p', a0, a1)) :
    PoolInv p' := by
  obtain ⟨hs0, hsle, ha0, ha1, hsup, hr0, hr1⟩ := remove_ok_shape h
  have hTpos : 0 < pool.total_lp_supply := by omega
  have hb0 : 0 < pool.reserve0 := by
    rcases Nat.eq_zero_or_pos pool.reserve0 with hz | hp
    · exact absurd (hinv.1.1 hz) (by omega)
    · exact hp
  have hb1 : 0 < pool.reserve1 := by
    rcases Nat.eq_zero_or_pos pool.reserve1 with hz | hp
    · exact absurd (hinv.2.1 hz) (by omega)
    · exact hp
  rcases eq_or_lt_of_le hsle with heq | hlt
  · have ha0' : a0 = pool.reserve0 := by
      rw [ha0, heq, Nat.mul_div_cancel_left _ hTpos]
    have ha1' : a1 = pool.reserve1 := by
      rw [ha1, heq, Nat.mul_div_cancel_left _ hTpos]
    refine ⟨?_, ?_⟩
    · rw [hr0, hsup, ha0', heq]
      exact iff_of_true (by omega) (by omega)
    · rw [hr1, hsup, ha1', heq]
      exact iff_of_true (by omega) (by omega)
  · have ha0lt : a0 < pool.reserve0 := by
      rw [ha0, Nat.div_lt_iff_lt_mul hTpos]
      calc shares * pool.reserve0 < pool.total_lp_supply * pool.reserve0 :=
            Nat.mul_lt_mul_of_pos_right hlt hb0
      _ = pool.reserve0 * pool.total_lp_supply := Nat.mul_comm _ _
    have ha1lt : a1 < pool.reserve1 := by
      rw [ha1, Nat.div_lt_iff_lt_mul hTpos]
      calc shares * pool.reserve1 < pool.total_lp_supply * pool.reserve1 :=
            Nat.mul_lt_mul_of_pos_right hlt hb1
      _ = pool.reserve1 * pool.total_lp_supply := Nat.mul_comm _ _
    exact ⟨by rw [hr0, hsup]; exact iff_of_false (by omega) (by omega),
           by rw [hr1, hsup]; exact iff_of_false (by omega) (by omega)⟩

/-- A successful swap keeps both reserves positive (`amount_out` is
strictly below the output reserve) and does not touch the LP supply. -/
lemma swap_inv {pool : Pool} {d : Bool} {a : Nat} {p' : Pool} {out : Nat}
    (hinv : PoolInv pool) (h : swap pool d a = Except.ok (p', out)) :
    PoolInv p' := by
  obtain ⟨fee, vol, slip, sh, price, -, -, h0, h1, -, -, -, hout, hpos, -, hp'⟩ :=
    swap_ok_shape h
  subst hp'
  unfold PoolInv
  cases d
  case true =>
    simp only [ite_true, ite_false] at h0 h1 hout ⊢
    have hsup : 0 < pool.total_lp_supply := by
      rcases Nat.eq_zero_or_pos pool.total_lp_supply with hz | hp
      · exact absurd (hinv.2.2 hz) (by omega)
      · exact hp
    have hlt : out < pool.reserve1 := by
      rw [hout]
      exact swap_out_lt h0 h1
    exact ⟨iff_of_false (by omega) (by omega),
           iff_of_false (by omega) (by omega)⟩
  case false =>
    simp only [show ((false : Bool) = true) = False from eq_false (by decide),
      if_false, ite_true, ite_false] at h0 h1 hout ⊢
    have hsup : 0 < pool.total_lp_supply := by
      rcases Nat.eq_zero_or_pos pool.total_lp_supply with hz | hp
      · exact absurd (hinv.1.2 hz) (by omega)
      · exact hp
    have hlt : out < pool.reserve0 := by
      rw [hout]
      exact swap_out_lt h1 h0
    exact ⟨iff_of_false (by omega) (by omega),
           iff_of_false (by omega) (by omega)⟩

/-- C4: after every committed operation (initialize, add/remove liquidity,
swap, set-params), the pool state satisfies
`reserve0 = 0 ↔ reserve1 = 0 ↔ total_lp_supply = 0`, and a positive LP
supply forces both reserves positive: every reachable pool state is either
fully empty or fully funded. -/
theorem reachable_pool_funded_iff_empty (p : Pool) (h : Reachable p) :
    (p.reserve0 = 0 ↔ p.reserve1 = 0) ∧
    (p.reserve0 = 0 ↔ p.total_lp_supply = 0) ∧
    (0 < p.total_lp_supply → 0 < p.reserve0 ∧ 0 < p.reserve1) := by
  have hinv : PoolInv p := by
    induction h with
    | init mn mx b g dl al br q hi => exact initialize_inv hi
    | addLiq q a0 a1 q' s hr hadd ih => exact add_liquidity_inv hadd
    | remLiq q sh q' a0 a1 hr hrem ih => exact remove_liquidity_inv ih hrem
    | swapStep q d a q' o hr hsw ih => exact swap_inv ih hsw
    | setStep q mn mx b g dl al br q' hr hset ih => exact set_params_inv ih hset
  obtain ⟨i1, i2⟩ := hinv
  refine ⟨i1.trans i2.symm, i1, fun hs => ⟨?_, ?_⟩⟩
  · rcases Nat.eq_zero_or_pos p.reserve0 with hz | hp
    · exact absurd (i1.1 hz) (by omega)
    · exact hp
  · rcases Nat.eq_zero_or_pos p.reserve1 with hz | hp
    · exact absurd (i2.1 hz) (by omega)
    · exact hp

/-- C4 witness: the freshly initialized pool is reachable and satisfies
the invariant. -/
theorem reachable_pool_funded_iff_empty_witness :
    (emptyPool.reserve0 = 0 ↔ emptyPool.reserve1 = 0) ∧
    (emptyPool.reserve0 = 0 ↔ emptyPool.total_lp_supply = 0) ∧
    (0 < emptyPool.total_lp_supply →
      0 < emptyPool.reserve0 ∧ 0 < emptyPool.reserve1) :=
  reachable_pool_funded_iff_empty emptyPool
    (Reachable.init 0 0 0 0 0 0 0 emptyPool (by rfl))

end AdaptiveCpamm
